import Mathlib

/-!
Verification of the S3 request-signing and multipart-upload client.

The development shallowly embeds the Go sources:

* `S3Sign` models `sign.go` (package `s3`): the canonical-string builder
  `writeSigData` with its helpers `writeAmzHeaders`, `writeResource`,
  `writeVhostBucket` and `writeSubResource`, together with the
  `signParams` allow-list and Go's `http.Header` access functions.
  Go strings are modelled as `List Char` (the sources only ever compare
  and slice them bytewise, and all inputs of interest are ASCII).

* `S3Upload` models `s3util/uploader.go` (and the `Pause`/`Resume`
  variant of the same file): the `Uploader` state, `Write`'s buffering
  loop, `flush`, the per-part retry loop, `prepareClose`/`Close`,
  `abort`, `Pause` and `Resume`.  Network effects are captured by an
  explicit action trace and by oracles giving each attempt's outcome;
  byte buffers are `List Nat`.
-/

namespace S3Sign

/-- Go strings, viewed as their character sequence. -/
abbrev Str := List Char

/-- Go `strings.ToLower`, restricted to ASCII (hosts and header names
in this code are ASCII). -/
def lowerStr (s : Str) : Str := s.map Char.toLower

/-- Go `net/textproto` `validHeaderFieldByte`: the byte may appear in a
canonical MIME header key (RFC 7230 token characters). -/
def validHeaderFieldChar (c : Char) : Bool :=
  c.isAlphanum || c = '!' || c = '#' || c = '$' || c = '%' || c = '&' ||
    c = '\'' || c = '*' || c = '+' || c = '-' || c = '.' || c = '^' ||
    c = '_' || c = Char.ofNat 96 || c = '|' || c = '~'

/-- The canonicalizing pass of Go `textproto.CanonicalMIMEHeaderKey`:
uppercase the first character and every character following a dash,
lowercase the rest. -/
def canonPass : Bool → Str → Str
  | _, [] => []
  | upper, c :: cs =>
    let c' := if upper then c.toUpper else c.toLower
    c' :: canonPass (c' = '-') cs

/-- Go `textproto.CanonicalMIMEHeaderKey`: keys containing a byte that
is not a valid header-field byte are returned unchanged. -/
def canonicalKey (k : Str) : Str :=
  if k.all validHeaderFieldChar then canonPass true k else k

/-- A Go `http.Header`: a map from (canonical-form) header keys to the
list of values.  We keep the entries as an association list; Go's map
iteration order is arbitrary, and every consumer below either looks a
single key up or sorts what it collected, so the list order never shows
in any modelled output. -/
abbrev Header := List (Str × List Str)

/-- Go `http.Header.Get`: canonicalize the key, return the first value
of the entry, or the empty string when the entry is absent or empty. -/
def headerGet (h : Header) (k : Str) : Str :=
  match h.lookup (canonicalKey k) with
  | some (v :: _) => v
  | _ => []

/-- Go map membership `_, ok := r.Header[k]` — an exact-key lookup with
no canonicalization. -/
def headerHasKey (h : Header) (k : Str) : Bool :=
  (h.lookup k).isSome

/-- The `signParams` allow-list of `sign.go`: the query parameters that
participate in the canonicalized resource. -/
def signParamsList : List Str :=
  ["acl".toList, "delete".toList, "lifecycle".toList, "location".toList,
   "logging".toList, "notification".toList, "partNumber".toList,
   "policy".toList, "requestPayment".toList, "torrent".toList,
   "uploadId".toList, "uploads".toList, "versionId".toList,
   "versioning".toList, "versions".toList, "website".toList,
   "response-content-type".toList, "response-content-language".toList,
   "response-expires".toList, "response-cache-control".toList,
   "response-content-disposition".toList, "response-content-encoding".toList]

/-- Go `signParams[k]` map lookup (false for keys not in the map). -/
def signParams (k : Str) : Bool := signParamsList.contains k

/-- An HTTP request as the signer consumes it.  `path` is
`r.URL.RequestURI()` with the raw query stripped (exactly what
`writeResource` computes before writing), and `query` is the decoded
key/value multiset of `r.URL.Query()`, flattened to pairs. -/
structure Request where
  method : Str
  headers : Header
  host : Str
  path : Str
  query : List (Str × Str)

/-- `s3.Service`: an S3-compatible service, with the domain used to
derive bucket names. -/
structure Service where
  domain : Str

/-- `s3.DefaultService`. -/
def DefaultService : Service := ⟨"amazonaws.com".toList⟩

/-- Go `strings.Split(host, ".")`. -/
def splitDot : Str → List Str
  | [] => [[]]
  | c :: rest =>
    let r := splitDot rest
    if c = '.' then [] :: r
    else
      match r with
      | [] => [[c]]
      | a :: as => (c :: a) :: as

/-- The emission loop of the vhost branch: write the first section,
then each further section preceded by a dot. -/
def joinDots : List Str → Str
  | [] => []
  | x :: xs => x ++ (xs.map (fun s => '.' :: s)).flatten

/-- `writeVhostBucket`: strip the port, then (1) a host that is not
under `"." + domain` is a CNAME and is written `/` + lower-cased host;
(2) a host under the domain with more than three dot-sections has its
leading sections (all but the last three, `// omit .s3.amazonaws.com`)
written as the bucket; (3) otherwise nothing is written. -/
def writeVhostBucket (s : Service) (host : Str) : Str :=
  let host := host.takeWhile (fun c => c ≠ ':')
  if ¬ ('.' :: s.domain).isSuffixOf host then
    '/' :: lowerStr host
  else
    let a := splitDot host
    if 3 < a.length then
      '/' :: joinDots (a.take (a.length - 3))
    else []

/-- One collected sub-resource entry: `k` for an empty value, `k=v`
otherwise. -/
def renderParam (kv : Str × Str) : Str :=
  if kv.2 = [] then kv.1 else kv.1 ++ '=' :: kv.2

/-- The entries `writeSubResource` collects: every query pair whose key
is on the allow-list, rendered.  Go iterates the grouped `url.Values`
map; since the collection is sorted before use, folding over the pair
list gives the same sorted result. -/
def subEntries (r : Request) : List Str :=
  (r.query.filter (fun kv => signParams kv.1)).map renderParam

/-- The collected entries after Go's `sort.Strings` (bytewise
lexicographic; any sorting algorithm agrees on strings, where equal
elements are identical). -/
def sortedSubEntries (r : Request) : List Str :=
  List.insertionSort (· ≤ ·) (subEntries r)

/-- The `p := '?' ... p = '&'` emission loop of `writeSubResource`. -/
def joinQS : List Str → Str
  | [] => []
  | x :: xs => '?' :: (x ++ (xs.map (fun s => '&' :: s)).flatten)

/-- `writeSubResource`: collect allow-listed query parameters, sort,
emit with `?`/`&` separators. -/
def writeSubResource (r : Request) : Str :=
  joinQS (sortedSubEntries r)

/-- `writeResource`: bucket, then the query-stripped request path, then
the sub-resource suffix. -/
def writeResource (s : Service) (r : Request) : Str :=
  writeVhostBucket s r.host ++ r.path ++ writeSubResource r

/-- The lines `writeAmzHeaders` collects: each header entry whose
lower-cased key starts with `x-amz-`, as `name:comma-joined-values`. -/
def amzEntries (r : Request) : List Str :=
  r.headers.filterMap (fun kv =>
    let k := lowerStr kv.1
    if "x-amz-".toList.isPrefixOf k then
      some (k ++ ':' :: List.intercalate [','] kv.2)
    else none)

/-- The collected amz lines after `sort.Strings`. -/
def sortedAmzEntries (r : Request) : List Str :=
  List.insertionSort (· ≤ ·) (amzEntries r)

/-- `writeAmzHeaders`: each sorted entry followed by a newline. -/
def writeAmzHeaders (r : Request) : Str :=
  ((sortedAmzEntries r).map (fun h => h ++ ['\n'])).flatten

/-- `writeSigData`: the canonical string that is HMAC-signed.  Each
`w.Write` of the source appends in order; the conditional Date write is
skipped exactly when the header map has an `X-Amz-Date` key. -/
def writeSigData (s : Service) (r : Request) : Str :=
  r.method ++ '\n' ::
    (headerGet r.headers "content-md5".toList ++ '\n' ::
      (headerGet r.headers "content-type".toList ++ '\n' ::
        ((if headerHasKey r.headers "X-Amz-Date".toList then []
          else headerGet r.headers "date".toList) ++ '\n' ::
          (writeAmzHeaders r ++ writeResource s r))))

/-- Spec-side view for C2: the parameter name of a rendered sub-resource
entry — everything before the first `=`. -/
def pname (e : Str) : Str := e.takeWhile (fun c => c ≠ '=')

/-- The root domain of the default service's endpoint,
`s3.amazonaws.com` (the spec's "service's root domain"; the test
vectors of the repository use exactly this endpoint). -/
def rootDomain : Str := "s3.amazonaws.com".toList

end S3Sign

namespace S3Upload

/-- Byte buffers (`[]byte`); the claims never need byte-range facts, so
bytes are plain naturals. -/
abbrev Bytes := List Nat

/-- `minPartSize = 5 * 1024 * 1024` (defined by Amazon). -/
def minPartSize : Nat := 5 * 1024 * 1024

/-- `maxPartSize = 1<<31 - 1` (the source's 32-bit-safe cap). -/
def maxPartSize : Nat := 2 ^ 31 - 1

/-- `nTry = 2`: the per-part retry budget. -/
def nTry : Nat := 2

/-- `concurrency = 5`: the worker-pool size (present for completeness;
the claims below quantify over completion interleavings instead). -/
def concurrency : Nat := 5

/-- A `part`: sequence number, entity tag (filled on upload success)
and the buffered contents of its `bytes.Reader`. -/
structure Part where
  num : Nat
  etag : String
  data : Bytes
deriving DecidableEq

/-- The `Uploader` state.  `bufcap` is `cap(u.buf)` (0 = no buffer
allocated), `data` is `u.buf[:u.off]`, `partCtr` is `u.part`, `parts`
is `u.xml.Part`, and `err` is the sticky error (`u.Err`) as an opaque
code.  The channel, wait-group and worker goroutines carry no data and
are modelled by the explicit completion sequences of the theorems. -/
structure Uploader where
  url : String
  uploadId : String
  bufsz : Nat
  bufcap : Nat
  data : Bytes
  parts : List Part
  partCtr : Nat
  closed : Bool
  err : Option Nat
deriving DecidableEq

/-- Errors surfaced by the API: `syscall.EINVAL` or an upstream
transport/status error carried as a code. -/
inductive Err
  | einval
  | upstream (code : Nat)
deriving DecidableEq

/-- Observable effects: rewinding a part's reader, a part PUT attempt,
handing a part to the worker pool, the abort DELETE, and the completion
POST with its marshalled body. -/
inductive Action
  | seekStart (pn : Nat)
  | putAttempt (pn : Nat) (attempt : Nat)
  | flushPart (pn : Nat)
  | abortCall
  | commitCall (body : List (Nat × String))
deriving DecidableEq

/-- The buffer-size growth step of `Write`:
`u.bufsz = min(u.bufsz+u.bufsz/1000, maxPartSize)`. -/
def growth (s : Nat) : Nat := min (s + s / 1000) maxPartSize

/-- The uploader as `newUploader` leaves it after a successful initiate
call decoded `UploadId` (buffer unallocated, size policy at the
minimum, part list empty, open, no error). -/
def initU (url uploadId : String) : Uploader :=
  { url := url, uploadId := uploadId, bufsz := minPartSize, bufcap := 0,
    data := [], parts := [], partCtr := 0, closed := false, err := none }

/-- `flush`: increment the part counter, append the part built from the
current buffer contents to `u.xml.Part` (and hand it to the worker
channel), reset the buffer. -/
def flush (u : Uploader) : Uploader :=
  { u with partCtr := u.partCtr + 1,
           parts := u.parts ++ [{ num := u.partCtr + 1, etag := "", data := u.data }],
           bufcap := 0, data := [] }

/-- The `for n < len(p)` loop of `Write`.  One unfolding is one loop
iteration: allocate a buffer of the current target size (advancing the
target by `growth`) when none is allocated, copy
`r = min(len(u.buf)-u.off, len(p)-n)` bytes, flush when the buffer is
exactly full.  Each iteration consumes `r ≥ 1` bytes, so fuel
`p.length + 1` always suffices; the `r = 0` guard marks the states on
which the Go loop would never terminate (full unflushed or zero-length
buffer), unreachable from the initial state. -/
def writeLoop : Nat → Uploader → Bytes → Uploader × Nat
  | 0, u, _ => (u, 0)
  | fuel + 1, u, p =>
    if p = [] then (u, 0)
    else
      let u1 := if u.bufcap = 0
        then { u with bufcap := u.bufsz,
                      bufsz := min (u.bufsz + u.bufsz / 1000) maxPartSize }
        else u
      let r := min (u1.bufcap - u1.data.length) p.length
      if r = 0 then (u1, 0)
      else
        let u2 := { u1 with data := u1.data ++ p.take r }
        let u3 := if u2.data.length = u2.bufcap then flush u2 else u2
        let res := writeLoop fuel u3 (p.drop r)
        (res.1, r + res.2)

/-- `Write`: reject when closed (`EINVAL`) or when the sticky error is
set (returning it), otherwise run the buffering loop. -/
def writeU (u : Uploader) (p : Bytes) : Uploader × Nat × Option Err :=
  if u.closed then (u, 0, some Err.einval)
  else
    match u.err with
    | some e => (u, 0, some (Err.upstream e))
    | none =>
      let res := writeLoop (p.length + 1) u p
      (res.1, res.2, none)

/-- A sequence of `Write` calls. -/
def runWrites (u : Uploader) (chunks : List Bytes) : Uploader :=
  chunks.foldl (fun u p => (writeU u p).1) u

/-- The `for i := 0; i < nTry; i++` loop of `retryUploadPart`, with the
outcome of attempt `i` given by `oracle i` (`none` = `putPart`
succeeded).  Every attempt first rewinds the reader (`p.r.Seek(0, 0)`).
Returns the actions performed and — when the budget is exhausted — the
last attempt's error. -/
def retryLoop (oracle : Nat → Option Nat) (pn : Nat) :
    Nat → Nat → List Action × Option Nat
  | 0, _ => ([], none)
  | rem + 1, i =>
    let acts := [Action.seekStart pn, Action.putAttempt pn i]
    match oracle i with
    | none => (acts, none)
    | some e =>
      match rem with
      | 0 => (acts, some e)
      | _ + 1 =>
        let res := retryLoop oracle pn rem (i + 1)
        (acts ++ res.1, res.2)

/-- `retryUploadPart`: run the attempt loop; on exhaustion assign the
last error to `u.Err` unconditionally (the source has a bare
`u.Err = err`, with no check of a previously recorded error). -/
def retryUploadPart (oracle : Nat → Option Nat) (u : Uploader) (pn : Nat) :
    Uploader × List Action :=
  let res := retryLoop oracle pn nTry 0
  match res.2 with
  | none => (u, res.1)
  | some e => ({ u with err := some e }, res.1)

/-- A sequence of part completions (part number and attempt oracle),
in the order the racing workers finish them. -/
def runCompletions (u : Uploader) (specs : List (Nat × (Nat → Option Nat))) : Uploader :=
  specs.foldl (fun u s => (retryUploadPart s.2 u s.1).1) u

/-- `abort`: issue the DELETE; every outcome (`ar` = transport error or
non-200 status) just returns — the failure is swallowed by design. -/
def abortGo (_ar : Option Nat) : List Action := [Action.abortCall]

/-- `prepareClose` (named `shutdown` in the `Pause`/`Resume` variant):
`EINVAL` when already closed; flush any allocated buffer; drain the
pool; mark closed; when the sticky error is set, abort (outcome `ar`
swallowed) and return the sticky error. -/
def prepareClose (u : Uploader) (ar : Option Nat) :
    Uploader × List Action × Option Err :=
  if u.closed then (u, [], some Err.einval)
  else
    let s1 : Uploader × List Action :=
      if 0 < u.bufcap then (flush u, [Action.flushPart (u.partCtr + 1)])
      else (u, [])
    let u2 := { s1.1 with closed := true }
    match u2.err with
    | some e => (u2, s1.2 ++ abortGo ar, some (Err.upstream e))
    | none => (u2, s1.2, none)

/-- The `for retries := 0; retries < 3` commit loop of `Close`: re-sign
and POST the completion body each attempt (`co i` = outcome), stop on
success, keep the last error for exhaustion. -/
def commitLoop (co : Nat → Option Nat) (body : List (Nat × String)) :
    Nat → Nat → Option Nat → List Action × Option Err
  | 0, _, last => ([], last.map Err.upstream)
  | rem + 1, i, _ =>
    match co i with
    | some e =>
      let res := commitLoop co body rem (i + 1) (some e)
      (Action.commitCall body :: res.1, res.2)
    | none => ([Action.commitCall body], none)

/-- `Close`: `prepareClose`, then marshal `u.xml` (the parts in list
order as `(PartNumber, ETag)`) and POST it with up to 3 attempts. -/
def closeGo (u : Uploader) (co : Nat → Option Nat) (ar : Option Nat) :
    Uploader × List Action × Option Err :=
  let pc := prepareClose u ar
  match pc.2.2 with
  | some e => (pc.1, pc.2.1, some e)
  | none =>
    let body := pc.1.parts.map (fun p => (p.num, p.etag))
    let res := commitLoop co body 3 0 none
    (pc.1, pc.2.1 ++ res.1, res.2)

/-- `UploaderState`: the marshalable snapshot taken by `Pause`. -/
structure UploaderState where
  buffer : Bytes
  url : String
  uploadId : String
  part : Nat
  parts : List Part
deriving DecidableEq

/-- `Pause`: when the buffer holds fewer than `MinPartSize` bytes (and
is non-empty) it cannot be flushed as a part, so its contents move into
the snapshot and the live buffer is cleared; then `shutdown`
(= `prepareClose`) runs, and on success the snapshot captures the part
counter, the parts list, the URL and the upload id. -/
def pause (u : Uploader) (ar : Option Nat) :
    Uploader × List Action × Except Err UploaderState :=
  let s1 : Uploader × Bytes :=
    if 0 < u.data.length ∧ u.data.length < minPartSize
    then ({ u with bufcap := 0, data := [] }, u.data)
    else (u, [])
  let pc := prepareClose s1.1 ar
  match pc.2.2 with
  | some e => (pc.1, pc.2.1, Except.error e)
  | none =>
    (pc.1, pc.2.1, Except.ok
      { buffer := s1.2, url := pc.1.url, uploadId := pc.1.uploadId,
        part := pc.1.partCtr, parts := pc.1.parts })

/-- `Resume`: a fresh `newUploader` state (growth target back at
`MinPartSize`), the saved fields restored, and a buffer of size
`u.bufsz = MinPartSize` allocated eagerly and pre-filled with the
snapshot's remainder bytes.  Note the manual allocation does not
advance `bufsz` the way `Write`'s allocation does.  (`copy` truncates
at the buffer size; snapshots written by `Pause` always fit.) -/
def resume (st : UploaderState) : Uploader :=
  { url := st.url, uploadId := st.uploadId,
    bufsz := minPartSize, bufcap := minPartSize,
    data := st.buffer, parts := st.parts, partCtr := st.part,
    closed := false, err := none }

/-- The ETag extraction of `putPart`: `s[1 : len(s)-1]`.  A Go slice
with those bounds panics unless `2 ≤ len(s)`; the panic is modelled as
`none`. -/
def etagSlice (s : List Char) : Option (List Char) :=
  if 2 ≤ s.length then some ((s.drop 1).dropLast) else none

/-- The tail of `putPart` after `client.Do`: a non-200 status is
returned as an error; on 200 the `ETag` response header value is
sliced (`Except.ok none` = the slice panics). -/
def putPartEtag (status : Nat) (etagHeader : List Char) :
    Except Nat (Option (List Char)) :=
  if status ≠ 200 then Except.error status
  else Except.ok (etagSlice etagHeader)

/-- The bytes the uploader has accepted: flushed parts in order, then
the current buffer. -/
def content (u : Uploader) : Bytes :=
  (u.parts.map Part.data).flatten ++ u.data

/-- Base invariant of reachable uploader states: size policy within
`[minPartSize, maxPartSize]`; an allocated buffer is never full
(a full buffer is flushed at once) and within the maximum; an
unallocated buffer is empty; the part counter matches the part list,
whose numbers are `1, 2, …` in order. -/
def InvB (u : Uploader) : Prop :=
  minPartSize ≤ u.bufsz ∧ u.bufsz ≤ maxPartSize ∧
  (u.bufcap ≠ 0 → u.data.length < u.bufcap ∧ u.bufcap ≤ maxPartSize) ∧
  (u.bufcap = 0 → u.data = []) ∧
  u.partCtr = u.parts.length ∧
  u.parts.map Part.num = List.range' 1 u.parts.length

/-- In an unbroken session an allocated buffer is non-empty (every
allocation is immediately followed by a copy); `Resume`'s manual
allocation may break this. -/
def InvPos (u : Uploader) : Prop := u.bufcap ≠ 0 → 1 ≤ u.data.length

/-- The first `n` buffer target sizes: `growth` iterated on
`minPartSize`. -/
def sizesIter (n : Nat) : List Nat :=
  (List.range n).map (fun i => growth^[i] minPartSize)

/-- Size-history invariant of unbroken sessions: every flushed part has
exactly the successive target sizes, an allocated buffer has the next
target size, and `bufsz` is the target after that. -/
def InvS (u : Uploader) : Prop :=
  u.parts.map (fun p => p.data.length) = sizesIter u.parts.length ∧
  (u.bufcap ≠ 0 → u.bufcap = growth^[u.parts.length] minPartSize) ∧
  u.bufsz = growth^[u.parts.length + (if u.bufcap = 0 then 0 else 1)] minPartSize

/-- The size shadow of an uploader: buffer sizes and fill plus the part
lengths.  `writeLoop` only ever branches on these numbers, so the
shadow evolves by the same program (`absWriteLoop`) and lets concrete
multi-megabyte runs be evaluated by `decide`. -/
structure AbsU where
  bufsz : Nat
  bufcap : Nat
  fill : Nat
  sizes : List Nat
deriving DecidableEq

/-- Project an uploader onto its size shadow. -/
def absOf (u : Uploader) : AbsU :=
  ⟨u.bufsz, u.bufcap, u.data.length, u.parts.map (fun p => p.data.length)⟩

/-- `flush` on the size shadow. -/
def absFlush (a : AbsU) : AbsU :=
  { a with sizes := a.sizes ++ [a.fill], bufcap := 0, fill := 0 }

/-- `writeLoop` on the size shadow. -/
def absWriteLoop : Nat → AbsU → Nat → AbsU × Nat
  | 0, a, _ => (a, 0)
  | fuel + 1, a, n =>
    if n = 0 then (a, 0)
    else
      let a1 := if a.bufcap = 0
        then { a with bufcap := a.bufsz,
                      bufsz := min (a.bufsz + a.bufsz / 1000) maxPartSize }
        else a
      let r := min (a1.bufcap - a1.fill) n
      if r = 0 then (a1, 0)
      else
        let a2 := { a1 with fill := a1.fill + r }
        let a3 := if a2.fill = a2.bufcap then absFlush a2 else a2
        let res := absWriteLoop fuel a3 (n - r)
        (res.1, r + res.2)

/-- The flush-on-close step of `prepareClose`, on the size shadow. -/
def absClose (a : AbsU) : AbsU :=
  if 0 < a.bufcap then absFlush a else a

end S3Upload

namespace S3Sign

/-- C1: for every request the canonical string is the method, the
Content-MD5 value (empty if absent), the Content-Type value (empty if
absent) and the Date value — omitted exactly when an `X-Amz-Date`
header entry exists, its newline kept, even if a Date header is also
set — each followed by a newline, then the sorted, lower-cased
`x-amz-*` header lines `name:comma-joined-values` each with a newline,
and finally the canonicalized resource. -/
theorem c1_canonical_string_shape (s : Service) (r : Request) :
    writeSigData s r =
      r.method ++ '\n' ::
        (headerGet r.headers "content-md5".toList ++ '\n' ::
          (headerGet r.headers "content-type".toList ++ '\n' ::
            ((if headerHasKey r.headers "X-Amz-Date".toList then []
              else headerGet r.headers "date".toList) ++ '\n' ::
              (((sortedAmzEntries r).map (fun h => h ++ ['\n'])).flatten
                ++ writeResource s r))))
    ∧ List.Sorted (· ≤ ·) (sortedAmzEntries r)
    ∧ List.Perm (sortedAmzEntries r) (amzEntries r) :=
  ⟨rfl, List.sorted_insertionSort _ _, List.perm_insertionSort _ _⟩

end S3Sign

namespace S3Upload

/-- C10: on a 200 response the ETag extraction removes exactly the
first and last character of the header value; for a value of length
below 2 (for instance an absent header, read as the empty string) the
slice `s[1:len(s)-1]` is out of bounds — a panic (`none`), not an error
return; and it coincides with stripping surrounding quotes exactly on
values that do carry them, as the concrete non-quoted input `abcd`
shows. -/
theorem c10_etag_extraction :
    (∀ st et, st = 200 → putPartEtag st et = Except.ok (etagSlice et))
    ∧ (∀ s : List Char, 2 ≤ s.length → etagSlice s = some ((s.drop 1).dropLast))
    ∧ (∀ s : List Char, s.length < 2 → etagSlice s = none)
    ∧ etagSlice [] = none
    ∧ (∀ t : List Char, etagSlice ('"' :: t ++ ['"']) = some t)
    ∧ etagSlice "abcd".toList = some "bc".toList
    ∧ etagSlice "abcd".toList ≠ some "abcd".toList := by
  refine ⟨?_, ?_, ?_, by decide, ?_, by decide, by decide⟩
  · intro st et h
    simp [putPartEtag, h]
  · intro s h
    simp [etagSlice, h]
  · intro s h
    simp [etagSlice, Nat.not_le_of_lt h, Nat.not_le.mpr h]
  · intro t
    have hlen : 2 ≤ ('"' :: t ++ ['"']).length := by
      simp [List.length_append]
    simp [etagSlice, hlen]

/-- Witness for C10 at a concrete quoted header value. -/
theorem c10_witness :
    2 ≤ ("\"xy\"".toList).length ∧
      etagSlice "\"xy\"".toList = some (("\"xy\"".toList.drop 1).dropLast) :=
  ⟨by decide, c10_etag_extraction.2.1 _ (by decide)⟩

/-- C8: once the uploader is closed, `Write` returns `EINVAL` at once
with the state untouched, and a further `Close` (or its
`prepareClose`) returns `EINVAL` with no flush, abort or commit — the
action trace is empty. -/
theorem c8_closed_rejects (u : Uploader) (h : u.closed = true) :
    (∀ p, writeU u p = (u, 0, some Err.einval))
    ∧ (∀ ar, prepareClose u ar = (u, [], some Err.einval))
    ∧ (∀ co ar, closeGo u co ar = (u, [], some Err.einval)) := by
  refine ⟨fun p => ?_, fun ar => ?_, fun co ar => ?_⟩
  · simp [writeU, h]
  · simp [prepareClose, h]
  · simp [closeGo, prepareClose, h]

/-- Witness for C8: a second close of a just-closed fresh session. -/
theorem c8_witness :
    closeGo { initU "" "" with closed := true } (fun _ => none) none =
      ({ initU "" "" with closed := true }, [], some Err.einval) :=
  (c8_closed_rejects _ rfl).2.2 _ _

end S3Upload

namespace S3Upload

/-- Unfolding of the two-attempt retry loop when both attempts fail. -/
theorem retryLoop_two_failures (oracle : Nat → Option Nat) (pn : Nat)
    (e0 e1 : Nat) (h0 : oracle 0 = some e0) (h1 : oracle 1 = some e1) :
    retryLoop oracle pn 2 0 =
      ([Action.seekStart pn, Action.putAttempt pn 0,
        Action.seekStart pn, Action.putAttempt pn 1], some e1) := by
  simp [retryLoop, h0, h1]

/-- C6: a part whose upload always fails is attempted exactly
`nTry = 2` times, each attempt rewinding the reader before the PUT;
the last error is recorded, and `Close` then returns that recorded
error while issuing exactly one abort DELETE, whose own outcome `ar`
never changes the returned error. -/
theorem c6_retry_budget_and_abort (u : Uploader) (pn : Nat)
    (oracle : Nat → Option Nat) (e0 e1 : Nat)
    (h0 : oracle 0 = some e0) (h1 : oracle 1 = some e1)
    (hcl : u.closed = false) (hcap : u.bufcap = 0) :
    (retryUploadPart oracle u pn).2 =
      [Action.seekStart pn, Action.putAttempt pn 0,
       Action.seekStart pn, Action.putAttempt pn 1]
    ∧ (retryUploadPart oracle u pn).1.err = some e1
    ∧ (∀ co ar,
        closeGo (retryUploadPart oracle u pn).1 co ar =
          ({ u with err := some e1, closed := true },
           [Action.abortCall], some (Err.upstream e1))) := by
  have hr : retryUploadPart oracle u pn =
      ({ u with err := some e1 },
       [Action.seekStart pn, Action.putAttempt pn 0,
        Action.seekStart pn, Action.putAttempt pn 1]) := by
    unfold retryUploadPart
    rw [show nTry = 2 from rfl, retryLoop_two_failures oracle pn e0 e1 h0 h1]
  refine ⟨by rw [hr], by rw [hr], fun co ar => ?_⟩
  rw [hr]
  simp [closeGo, prepareClose, hcl, hcap, abortGo]

/-- Witness for C6: a concrete always-failing part on a fresh session. -/
theorem c6_witness :
    (retryUploadPart (fun i => some (i + 5)) (initU "" "") 3).2 =
      [Action.seekStart 3, Action.putAttempt 3 0,
       Action.seekStart 3, Action.putAttempt 3 1] :=
  (c6_retry_budget_and_abort (initU "" "") 3 (fun i => some (i + 5)) 5 6
    rfl rfl rfl rfl).1

/-- Counterexample for C4: after part 1 exhausts its budget with error
`1` and part 2 later exhausts with error `2`, the session error is `2`
— the first recorded error was overwritten. -/
theorem c4_counterexample :
    ((retryUploadPart (fun _ => some 1) (initU "" "") 1).1).err = some 1
    ∧ ((retryUploadPart (fun _ => some 2)
        ((retryUploadPart (fun _ => some 1) (initU "" "") 1).1) 2).1).err = some 2
    ∧ ((2 : Nat) ≠ 1) := by
  refine ⟨?_, ?_, by decide⟩ <;> decide

/-- C4 (amended): the session error field records the error of the
most recent part to exhaust its retry budget — a later exhausted part
overwrites it — and subsequent `Write` calls and `Close` return the
currently recorded (most recent) error. -/
theorem c4_last_error_wins (u : Uploader) (o1 o2 : Nat → Option Nat)
    (pn1 pn2 : Nat) (e1 e2 : Nat)
    (h1 : (retryLoop o1 pn1 nTry 0).2 = some e1)
    (h2 : (retryLoop o2 pn2 nTry 0).2 = some e2)
    (hcl : u.closed = false) (hcap : u.bufcap = 0) :
    ((retryUploadPart o1 u pn1).1).err = some e1
    ∧ ((retryUploadPart o2 (retryUploadPart o1 u pn1).1 pn2).1).err = some e2
    ∧ (∀ p, writeU ((retryUploadPart o2 (retryUploadPart o1 u pn1).1 pn2).1) p =
        ((retryUploadPart o2 (retryUploadPart o1 u pn1).1 pn2).1, 0,
          some (Err.upstream e2)))
    ∧ (∀ co ar,
        (closeGo ((retryUploadPart o2 (retryUploadPart o1 u pn1).1 pn2).1) co ar).2.2 =
          some (Err.upstream e2)) := by
  have s1 : (retryUploadPart o1 u pn1).1 = { u with err := some e1 } := by
    simp [retryUploadPart, h1]
  have s2 : (retryUploadPart o2 (retryUploadPart o1 u pn1).1 pn2).1 =
      { u with err := some e2 } := by
    rw [s1]
    simp [retryUploadPart, h2]
  refine ⟨by rw [s1], by rw [s2], fun p => ?_, fun co ar => ?_⟩
  · rw [s2]
    simp [writeU, hcl]
  · rw [s2]
    simp [closeGo, prepareClose, hcl, hcap, abortGo]

/-- Witness for C4 (amended) at two concrete failing parts. -/
theorem c4_witness :
    ((retryUploadPart (fun _ => some 9)
        ((retryUploadPart (fun _ => some 8) (initU "" "") 1).1) 2).1).err = some 9 :=
  (c4_last_error_wins (initU "" "") (fun _ => some 8) (fun _ => some 9)
    1 2 8 9 rfl rfl rfl rfl).2.1

end S3Upload

namespace S3Sign

/-- `splitDot` never returns the empty list. -/
theorem splitDot_ne_nil (l : Str) : splitDot l ≠ [] := by
  cases l with
  | nil => simp [splitDot]
  | cons c rest =>
    by_cases hc : c = '.'
    · simp [splitDot, hc]
    · cases h : splitDot rest with
      | nil => simp [splitDot, hc, h]
      | cons a as => simp [splitDot, hc, h]

/-- Splitting distributes over an append at a dot. -/
theorem splitDot_append (x y : Str) :
    splitDot (x ++ '.' :: y) = splitDot x ++ splitDot y := by
  induction x with
  | nil => simp [splitDot]
  | cons c x ih =>
    by_cases hc : c = '.'
    · simp [splitDot, hc, ih]
    · obtain ⟨a, as, h⟩ := List.exists_cons_of_ne_nil (splitDot_ne_nil x)
      rw [h] at ih
      simp [splitDot, hc, ih, h]

/-- `joinDots` is a left inverse of `splitDot`. -/
theorem joinDots_splitDot (l : Str) : joinDots (splitDot l) = l := by
  induction l with
  | nil => simp [splitDot, joinDots]
  | cons c rest ih =>
    obtain ⟨a, as, h⟩ := List.exists_cons_of_ne_nil (splitDot_ne_nil rest)
    rw [h] at ih
    by_cases hc : c = '.'
    · simp only [joinDots, List.map_cons, List.flatten_cons] at ih ⊢
      simp [splitDot, hc, h, joinDots, ih]
    · simp only [joinDots, List.map_cons, List.flatten_cons] at ih ⊢
      simp [splitDot, hc, h, ih]

/-- A string without a colon is unchanged by the port-stripping
`takeWhile`. -/
theorem takeWhile_ne_colon {l : Str} (h : ':' ∉ l) :
    l.takeWhile (fun c => c ≠ ':') = l := by
  induction l with
  | nil => rfl
  | cons c rest ih =>
    have hc : ¬ (c = ':') := by
      intro e
      exact h (by simp [e])
    have hr : ':' ∉ rest := fun m => h (List.mem_cons_of_mem _ m)
    simp [List.takeWhile_cons, hc, ih hr]
    intro x hx e
    exact hr (e ▸ hx)

/-- `splitDot` of the default service's endpoint root domain. -/
theorem splitDot_rootDomain :
    splitDot rootDomain = ["s3".toList, "amazonaws".toList, "com".toList] := by
  decide

/-- C3: bucket derivation from the (port-stripped) host against the
default service, whose endpoint root domain is `s3.amazonaws.com`:
the root domain itself yields no bucket segment; a host `b.<root>`
yields the segment `/b`; a host not under the service domain (a CNAME)
yields a slash followed by the whole host lower-cased. -/
theorem c3_bucket_derivation :
    writeVhostBucket DefaultService rootDomain = []
    ∧ (∀ b : Str, ':' ∉ b →
        writeVhostBucket DefaultService (b ++ '.' :: rootDomain) = '/' :: b)
    ∧ (∀ host : Str, ':' ∉ host →
        ('.' :: DefaultService.domain).isSuffixOf host = false →
        writeVhostBucket DefaultService host = '/' :: lowerStr host) := by
  refine ⟨by decide, fun b hb => ?_, fun host hh hsuf => ?_⟩
  · have hnc : ':' ∉ b ++ '.' :: rootDomain := by
      intro m
      rcases List.mem_append.mp m with m | m
      · exact hb m
      · revert m
        decide
    have hsfx : ('.' :: DefaultService.domain).isSuffixOf
        (b ++ '.' :: rootDomain) = true := by
      rw [List.isSuffixOf_iff_suffix]
      refine ⟨b ++ ".s3".toList, ?_⟩
      rw [List.append_assoc]
      congr 1
    have hlen : 1 ≤ (splitDot b).length :=
      List.length_pos.mpr (splitDot_ne_nil b)
    rw [writeVhostBucket]
    rw [takeWhile_ne_colon hnc]
    rw [if_neg (by simp [hsfx])]
    rw [splitDot_append, splitDot_rootDomain]
    rw [if_pos (by simp [List.length_append]; omega)]
    have htake : (splitDot b ++ ["s3".toList, "amazonaws".toList, "com".toList]).take
        ((splitDot b ++ ["s3".toList, "amazonaws".toList, "com".toList]).length - 3) =
        splitDot b := by
      rw [List.length_append]
      rw [List.take_left' (by simp)]
    rw [htake, joinDots_splitDot]
  · rw [writeVhostBucket]
    rw [takeWhile_ne_colon hh]
    rw [if_pos (by simp [hsuf])]

end S3Sign

namespace S3Sign

/-- Witness for C3 at a concrete bucket host and a concrete CNAME. -/
theorem c3_witness :
    writeVhostBucket DefaultService ("johnsmith".toList ++ '.' :: rootDomain) =
      '/' :: "johnsmith".toList
    ∧ writeVhostBucket DefaultService "static.johnsmith.net".toList =
      '/' :: lowerStr "static.johnsmith.net".toList :=
  ⟨c3_bucket_derivation.2.1 "johnsmith".toList (by decide),
   c3_bucket_derivation.2.2 "static.johnsmith.net".toList (by decide) (by decide)⟩

/-- `signParams` is membership in the allow-list. -/
theorem signParams_iff {k : Str} : signParams k = true ↔ k ∈ signParamsList := by
  simp [signParams, List.contains, List.elem_iff]

/-- No allow-list key is a prefix of a different allow-list key. -/
theorem allow_no_pre :
    ∀ a ∈ signParamsList, ∀ b ∈ signParamsList, a ≠ b → a.isPrefixOf b = false := by
  decide

/-- No allow-list key contains `=`. -/
theorem allow_no_eq : ∀ a ∈ signParamsList, '=' ∉ a := by decide

/-- `takeWhile` keeps a list all of whose elements satisfy the test. -/
theorem takeWhile_all_keep (k : Str) (hk : ∀ x ∈ k, ¬ x = '=') :
    k.takeWhile (fun c => c ≠ '=') = k := by
  rw [List.takeWhile_eq_self_iff]
  intro x hx
  simp [hk x hx]

/-- `takeWhile` stops exactly at the `=` following an `=`-free key. -/
theorem takeWhile_append_stop (k v : Str) (hk : ∀ x ∈ k, ¬ x = '=') :
    (k ++ '=' :: v).takeWhile (fun c => c ≠ '=') = k := by
  rw [List.takeWhile_append_of_pos (by intro a ha; simp [hk a ha])]
  simp [List.takeWhile_cons]

/-- A rendered parameter is its key followed by a (possibly empty)
`=`-led extension. -/
theorem renderParam_eq (k v : Str) : ∃ ext, renderParam (k, v) = k ++ ext := by
  by_cases hv : v = []
  · exact ⟨[], by simp [renderParam, hv]⟩
  · exact ⟨'=' :: v, by simp [renderParam, hv]⟩

/-- The parameter name of a rendered entry is its key, provided the key
contains no `=`. -/
theorem pname_renderParam (k v : Str) (hk : '=' ∉ k) :
    pname (renderParam (k, v)) = k := by
  have hks : ∀ x ∈ k, ¬ x = '=' := fun x hx e => hk (e ▸ hx)
  by_cases hv : v = []
  · simp only [renderParam, hv, if_pos rfl, pname]
    exact takeWhile_all_keep k hks
  · simp only [renderParam, hv, if_neg hv, pname]
    exact takeWhile_append_stop k v hks

/-- A lexicographic comparison of two appends whose stems are not
prefixes of each other is decided within the stems. -/
theorem lex_of_lex_append {k1 k2 x y : Str}
    (h1 : k1.isPrefixOf k2 = false) (h2 : k2.isPrefixOf k1 = false) :
    List.Lex (· < ·) (k1 ++ x) (k2 ++ y) → List.Lex (· < ·) k1 k2 := by
  induction k1 generalizing k2 with
  | nil => simp at h1
  | cons a t1 ih =>
    cases k2 with
    | nil => simp at h2
    | cons b t2 =>
      intro hlex
      cases hlex with
      | rel hab => exact List.Lex.rel hab
      | cons ht =>
        refine List.Lex.cons (ih ?_ ?_ ht)
        · simpa [List.isPrefixOf_cons₂] using h1
        · simpa [List.isPrefixOf_cons₂] using h2

/-- Equal appends force one stem to be a prefix of the other. -/
theorem append_eq_imp_pre {k1 k2 x y : Str} (he : k1 ++ x = k2 ++ y) :
    k1.isPrefixOf k2 = true ∨ k2.isPrefixOf k1 = true := by
  induction k1 generalizing k2 with
  | nil =>
    left
    simp
  | cons a t1 ih =>
    cases k2 with
    | nil =>
      right
      simp
    | cons b t2 =>
      injection he with hh ht
      subst hh
      rcases ih ht with h | h
      · left
        simpa using h
      · right
        simpa using h

/-- Sorted rendered entries of allow-listed parameters are sorted by
parameter name. -/
theorem pname_mono {k1 k2 v1 v2 : Str}
    (hm1 : k1 ∈ signParamsList) (hm2 : k2 ∈ signParamsList)
    (hab : renderParam (k1, v1) ≤ renderParam (k2, v2)) : k1 ≤ k2 := by
  by_cases hk : k1 = k2
  · exact le_of_eq hk
  · have h1 : k1.isPrefixOf k2 = false := allow_no_pre k1 hm1 k2 hm2 hk
    have h2 : k2.isPrefixOf k1 = false :=
      allow_no_pre k2 hm2 k1 hm1 (fun e => hk e.symm)
    obtain ⟨e1, he1⟩ := renderParam_eq k1 v1
    obtain ⟨e2, he2⟩ := renderParam_eq k2 v2
    rcases lt_or_eq_of_le hab with hlt | heq
    · refine le_of_lt ?_
      rw [he1, he2] at hlt
      exact lex_of_lex_append h1 h2 hlt
    · rw [he1, he2] at heq
      rcases append_eq_imp_pre heq with h | h
      · rw [h1] at h
        cases h
      · rw [h2] at h
        cases h

/-- C2: the sub-resource suffix consists of exactly the allow-listed
query parameters (a permutation of their renderings — parameters off
the list, such as `max-keys`, `marker` and `prefix`, never appear),
sorted lexicographically by parameter name, each rendered `k=v` or bare
`k` for the empty value, with separator `?` before the first entry and
`&` before each further entry. -/
theorem c2_subresource (r : Request) :
    writeSubResource r = joinQS (sortedSubEntries r)
    ∧ List.Perm (sortedSubEntries r) (subEntries r)
    ∧ (∀ kv ∈ r.query, signParams kv.1 = true → renderParam kv ∈ sortedSubEntries r)
    ∧ (∀ e ∈ sortedSubEntries r,
        ∃ kv, kv ∈ r.query ∧ signParams kv.1 = true ∧ e = renderParam kv)
    ∧ List.Pairwise (fun a b => pname a ≤ pname b) (sortedSubEntries r)
    ∧ signParams "max-keys".toList = false
    ∧ signParams "marker".toList = false
    ∧ signParams "prefix".toList = false := by
  have hperm : List.Perm (sortedSubEntries r) (subEntries r) :=
    List.perm_insertionSort _ _
  have hmemc : ∀ e ∈ sortedSubEntries r,
      ∃ kv, kv ∈ r.query ∧ signParams kv.1 = true ∧ e = renderParam kv := by
    intro e he
    have : e ∈ subEntries r := hperm.mem_iff.mp he
    obtain ⟨kv, hkv, hre⟩ := List.mem_map.mp this
    exact ⟨kv, (List.mem_filter.mp hkv).1, (List.mem_filter.mp hkv).2, hre.symm⟩
  refine ⟨rfl, hperm, ?_, hmemc, ?_, by decide, by decide, by decide⟩
  · intro kv hkv hsp
    refine hperm.mem_iff.mpr (List.mem_map.mpr ⟨kv, List.mem_filter.mpr ⟨hkv, hsp⟩, rfl⟩)
  · have hsorted : List.Pairwise (· ≤ ·) (sortedSubEntries r) :=
      List.sorted_insertionSort _ _
    refine hsorted.imp_of_mem ?_
    intro a b ha hb hab
    obtain ⟨⟨k1, v1⟩, _, hs1, he1⟩ := hmemc a ha
    obtain ⟨⟨k2, v2⟩, _, hs2, he2⟩ := hmemc b hb
    have hm1 : k1 ∈ signParamsList := signParams_iff.mp hs1
    have hm2 : k2 ∈ signParamsList := signParams_iff.mp hs2
    subst he1
    subst he2
    rw [pname_renderParam k1 v1 (allow_no_eq k1 hm1),
        pname_renderParam k2 v2 (allow_no_eq k2 hm2)]
    exact pname_mono hm1 hm2 hab

/-- Witness for C2 at a concrete query mixing allow-listed and
non-allow-listed parameters. -/
theorem c2_witness :
    renderParam ("uploadId".toList, "7".toList) ∈
      sortedSubEntries
        ⟨"GET".toList, [], [], [],
         [("max-keys".toList, "50".toList), ("uploadId".toList, "7".toList)]⟩ :=
  (c2_subresource _).2.2.1 _ (by decide) (by decide)

end S3Sign

namespace S3Upload

theorem minPartSize_pos : 0 < minPartSize := by decide

theorem minPartSize_le_maxPartSize : minPartSize ≤ maxPartSize := by decide

theorem growth_le_max (s : Nat) : growth s ≤ maxPartSize := Nat.min_le_right _ _

theorem min_le_growth {s : Nat} (h : minPartSize ≤ s) : minPartSize ≤ growth s :=
  le_min (le_trans h (Nat.le_add_right _ _)) minPartSize_le_maxPartSize

theorem le_growth {s : Nat} (h : s ≤ maxPartSize) : s ≤ growth s :=
  le_min (Nat.le_add_right _ _) h

theorem sizesIter_succ (n : Nat) :
    sizesIter (n + 1) = sizesIter n ++ [growth^[n] minPartSize] := by
  simp [sizesIter, List.range_succ]

theorem writeLoop_nil (fuel : Nat) (u : Uploader) : writeLoop (fuel + 1) u [] = (u, 0) := by
  simp [writeLoop]

theorem writeLoop_main : ∀ (fuel : Nat) (u : Uploader) (p : Bytes),
    InvB u → p.length < fuel →
    InvB (writeLoop fuel u p).1 ∧
    (writeLoop fuel u p).2 = p.length ∧
    content (writeLoop fuel u p).1 = content u ++ p ∧
    (InvPos u → InvPos (writeLoop fuel u p).1) ∧
    (InvS u → InvS (writeLoop fuel u p).1) := by
  intro fuel
  induction fuel with
  | zero => intro u p hB hf; exact absurd hf (Nat.not_lt_zero _)
  | succ fuel ih =>
    rintro ⟨url, uid, bufsz, bufcap, data, parts, ctr, closed, err⟩ p hB hf
    obtain ⟨h1, h2, h3, h4, h5, h6⟩ := hB
    by_cases hp : p = []
    · subst hp
      rw [writeLoop_nil]
      exact ⟨⟨h1, h2, h3, h4, h5, h6⟩, rfl, by simp [content], fun h => h, fun h => h⟩
    · by_cases hcap : bufcap = 0
      · subst hcap
        have hd : data = [] := h4 rfl
        subst hd
        have h1' : minPartSize ≤ bufsz := h1
        have h2' : bufsz ≤ maxPartSize := h2
        have hb1 : 1 ≤ bufsz := le_trans minPartSize_pos h1'
        have hp1 : 1 ≤ p.length := List.length_pos.mpr hp
        have htake : List.length (List.take (min bufsz (List.length p)) p) =
            min bufsz (List.length p) := by
          rw [List.length_take]
          omega
        have hr0 : ¬ (min bufsz (List.length p) = 0) := by omega
        simp only [writeLoop, if_neg hp, if_true, List.length_nil, Nat.sub_zero,
          List.nil_append]
        rw [if_neg hr0, htake]
        by_cases hfill : min bufsz (List.length p) = bufsz
        · rw [if_pos hfill, hfill]
          simp only [flush]
          have hqlen : (List.take bufsz p).length = bufsz := by
            rw [List.length_take]
            omega
          have hlen3 : (List.drop bufsz p).length < fuel := by
            rw [List.length_drop]
            omega
          have hB3 : InvB
              { url := url
                uploadId := uid
                bufsz := min (bufsz + bufsz / 1000) maxPartSize
                bufcap := 0
                data := []
                parts := parts ++ [{ num := ctr + 1, etag := "", data := List.take bufsz p }]
                partCtr := ctr + 1
                closed := closed
                err := err } := by
            refine ⟨min_le_growth h1', growth_le_max _, fun hne => absurd rfl hne,
              fun _ => rfl, ?_, ?_⟩
            · have h5' : ctr = parts.length := h5
              simp [h5']
            · show List.map Part.num (parts ++ [{ num := ctr + 1, etag := "", data := List.take bufsz p }]) = _
              rw [List.map_append, h6]
              have h5' : ctr = parts.length := h5
              simp [List.range'_concat, h5', Nat.add_comm]
          obtain ⟨ihB, ihn, ihc, ihp, ihs⟩ := ih _ (List.drop bufsz p) hB3 hlen3
          refine ⟨ihB, ?_, ?_, fun _ => ihp (fun hne => absurd rfl hne), fun hS => ihs ?_⟩
          · show bufsz + (writeLoop fuel _ (List.drop bufsz p)).2 = List.length p
            rw [ihn, List.length_drop]
            omega
          · show content (writeLoop fuel _ (List.drop bufsz p)).1 = _
            rw [ihc]
            simp [content, List.flatten_append, List.append_assoc, List.take_append_drop]
          · obtain ⟨hS1, hS2, hS3⟩ := hS
            have hS1' : List.map (fun q => q.data.length) parts = sizesIter parts.length := hS1
            have hS3' : bufsz = growth^[parts.length] minPartSize := by simpa using hS3
            refine ⟨?_, fun hne => absurd rfl hne, ?_⟩
            · show List.map (fun q => q.data.length)
                  (parts ++ [{ num := ctr + 1, etag := "", data := List.take bufsz p }]) = _
              rw [List.map_append, hS1']
              have hone : List.map (fun (q : Part) => q.data.length)
                  [({ num := ctr + 1, etag := "", data := List.take bufsz p } : Part)] =
                  [bufsz] := by
                simp [hqlen]
              rw [hone, hS3']
              simp [sizesIter_succ]
            · show min (bufsz + bufsz / 1000) maxPartSize = _
              have hgg : min (bufsz + bufsz / 1000) maxPartSize =
                  growth (growth^[parts.length] minPartSize) := by
                rw [← hS3']
                rfl
              rw [hgg, ← Function.iterate_succ_apply' growth parts.length minPartSize]
              simp
        · rw [if_neg hfill]
          have hlen3 : (List.drop (min bufsz (List.length p)) p).length < fuel := by
            rw [List.length_drop]
            omega
          have hB3 : InvB
              { url := url
                uploadId := uid
                bufsz := min (bufsz + bufsz / 1000) maxPartSize
                bufcap := bufsz
                data := List.take (min bufsz (List.length p)) p
                parts := parts
                partCtr := ctr
                closed := closed
                err := err } := by
            refine ⟨min_le_growth h1', growth_le_max _, fun _ => ⟨?_, h2'⟩, ?_, h5, h6⟩
            · show (List.take (min bufsz (List.length p)) p).length < bufsz
              rw [List.length_take, min_assoc, min_self]
              omega
            · intro h
              exact absurd (show bufsz = 0 from h) (by omega)
          obtain ⟨ihB, ihn, ihc, ihp, ihs⟩ :=
            ih _ (List.drop (min bufsz (List.length p)) p) hB3 hlen3
          refine ⟨ihB, ?_, ?_, fun _ => ihp ?_, fun hS => ihs ?_⟩
          · show min bufsz (List.length p) +
                (writeLoop fuel _ (List.drop (min bufsz (List.length p)) p)).2 = List.length p
            rw [ihn, List.length_drop]
            omega
          · show content (writeLoop fuel _ (List.drop (min bufsz (List.length p)) p)).1 = _
            rw [ihc]
            simp [content, List.append_assoc, List.take_append_drop]
          · intro _
            show 1 ≤ (List.take (min bufsz (List.length p)) p).length
            rw [List.length_take, min_assoc, min_self]
            omega
          · obtain ⟨hS1, hS2, hS3⟩ := hS
            have hS1' : List.map (fun (q : Part) => q.data.length) parts =
                sizesIter parts.length := hS1
            have hS3' : bufsz = growth^[parts.length] minPartSize := by simpa using hS3
            have hb0 : ¬ (bufsz = 0) := by omega
            refine ⟨hS1', fun _ => hS3', ?_⟩
            show min (bufsz + bufsz / 1000) maxPartSize = _
            have hgg : min (bufsz + bufsz / 1000) maxPartSize =
                growth (growth^[parts.length] minPartSize) := by
              rw [← hS3']
              rfl
            rw [hgg, ← Function.iterate_succ_apply' growth parts.length minPartSize]
            simp [hb0]
      · have h1' : minPartSize ≤ bufsz := h1
        have h2' : bufsz ≤ maxPartSize := h2
        obtain ⟨h3a, h3b⟩ : List.length data < bufcap ∧ bufcap ≤ maxPartSize := h3 hcap
        have hp1 : 1 ≤ p.length := List.length_pos.mpr hp
        have hr0 : ¬ (min (bufcap - List.length data) (List.length p) = 0) := by omega
        have htake : List.length
            (List.take (min (bufcap - List.length data) (List.length p)) p) =
            min (bufcap - List.length data) (List.length p) := by
          rw [List.length_take]
          omega
        simp only [writeLoop, if_neg hp, if_neg hcap, List.length_append]
        rw [if_neg hr0, htake]
        by_cases hfill :
          List.length data + min (bufcap - List.length data) (List.length p) = bufcap
        · rw [if_pos hfill]
          simp only [flush]
          have hlen3 :
              (List.drop (min (bufcap - List.length data) (List.length p)) p).length <
                fuel := by
            rw [List.length_drop]
            omega
          have hB3 : InvB
              { url := url
                uploadId := uid
                bufsz := bufsz
                bufcap := 0
                data := []
                parts := parts ++
                  [{ num := ctr + 1, etag := "",
                     data := data ++
                       List.take (min (bufcap - List.length data) (List.length p)) p }]
                partCtr := ctr + 1
                closed := closed
                err := err } := by
            refine ⟨h1', h2', fun hne => absurd rfl hne, fun _ => rfl, ?_, ?_⟩
            · have h5' : ctr = parts.length := h5
              simp [h5']
            · show List.map Part.num (parts ++
                  [{ num := ctr + 1, etag := "",
                     data := data ++
                       List.take (min (bufcap - List.length data) (List.length p)) p }]) = _
              rw [List.map_append, h6]
              have h5' : ctr = parts.length := h5
              simp [List.range'_concat, h5', Nat.add_comm]
          obtain ⟨ihB, ihn, ihc, ihp, ihs⟩ :=
            ih _ (List.drop (min (bufcap - List.length data) (List.length p)) p) hB3 hlen3
          refine ⟨ihB, ?_, ?_, fun _ => ihp (fun hne => absurd rfl hne), fun hS => ihs ?_⟩
          · show min (bufcap - List.length data) (List.length p) +
                (writeLoop fuel _
                  (List.drop (min (bufcap - List.length data) (List.length p)) p)).2 =
                List.length p
            rw [ihn, List.length_drop]
            omega
          · show content (writeLoop fuel _
                (List.drop (min (bufcap - List.length data) (List.length p)) p)).1 = _
            rw [ihc]
            simp [content, List.flatten_append, List.append_assoc, List.take_append_drop]
          · obtain ⟨hS1, hS2, hS3⟩ := hS
            have hS1' : List.map (fun (q : Part) => q.data.length) parts =
                sizesIter parts.length := hS1
            have hS2' : bufcap = growth^[parts.length] minPartSize := hS2 hcap
            refine ⟨?_, fun hne => absurd rfl hne, ?_⟩
            · show List.map (fun (q : Part) => q.data.length) (parts ++
                  [{ num := ctr + 1, etag := "",
                     data := data ++
                       List.take (min (bufcap - List.length data) (List.length p)) p }]) = _
              rw [List.map_append, hS1']
              have hone : List.map (fun (q : Part) => q.data.length)
                  [({ num := ctr + 1, etag := "",
                      data := data ++
                        List.take (min (bufcap - List.length data) (List.length p)) p } :
                    Part)] = [bufcap] := by
                simp only [List.map_cons, List.map_nil, List.length_append, htake]
                rw [hfill]
              rw [hone, hS2']
              simp [sizesIter_succ]
            · show bufsz = _
              have hS3' : bufsz = growth^[parts.length + 1] minPartSize := by
                simpa [hcap] using hS3
              simpa using hS3'
        · rw [if_neg hfill]
          have hlen3 :
              (List.drop (min (bufcap - List.length data) (List.length p)) p).length <
                fuel := by
            rw [List.length_drop]
            omega
          have hB3 : InvB
              { url := url
                uploadId := uid
                bufsz := bufsz
                bufcap := bufcap
                data := data ++
                  List.take (min (bufcap - List.length data) (List.length p)) p
                parts := parts
                partCtr := ctr
                closed := closed
                err := err } := by
            refine ⟨h1', h2', fun _ => ⟨?_, h3b⟩, ?_, h5, h6⟩
            · show List.length (data ++
                  List.take (min (bufcap - List.length data) (List.length p)) p) < bufcap
              rw [List.length_append, htake]
              omega
            · intro h
              exact absurd (show bufcap = 0 from h) hcap
          obtain ⟨ihB, ihn, ihc, ihp, ihs⟩ :=
            ih _ (List.drop (min (bufcap - List.length data) (List.length p)) p) hB3 hlen3
          refine ⟨ihB, ?_, ?_, fun _ => ihp ?_, fun hS => ihs ?_⟩
          · show min (bufcap - List.length data) (List.length p) +
                (writeLoop fuel _
                  (List.drop (min (bufcap - List.length data) (List.length p)) p)).2 =
                List.length p
            rw [ihn, List.length_drop]
            omega
          · show content (writeLoop fuel _
                (List.drop (min (bufcap - List.length data) (List.length p)) p)).1 = _
            rw [ihc]
            simp [content, List.append_assoc, List.take_append_drop]
          · intro _
            show 1 ≤ List.length (data ++
                List.take (min (bufcap - List.length data) (List.length p)) p)
            rw [List.length_append, htake]
            omega
          · obtain ⟨hS1, hS2, hS3⟩ := hS
            have hS1' : List.map (fun (q : Part) => q.data.length) parts =
                sizesIter parts.length := hS1
            have hS2' : bufcap = growth^[parts.length] minPartSize := hS2 hcap
            have hS3' : bufsz = growth^[parts.length + 1] minPartSize := by
              simpa [hcap] using hS3
            refine ⟨hS1', fun _ => hS2', ?_⟩
            show bufsz = _
            simpa [hcap] using hS3'

theorem writeLoop_frame : ∀ (fuel : Nat) (u : Uploader) (p : Bytes),
    (writeLoop fuel u p).1.closed = u.closed ∧ (writeLoop fuel u p).1.err = u.err ∧
    (writeLoop fuel u p).1.url = u.url ∧ (writeLoop fuel u p).1.uploadId = u.uploadId := by
  intro fuel
  induction fuel with
  | zero => intro u p; exact ⟨rfl, rfl, rfl, rfl⟩
  | succ fuel ih =>
    intro u p
    simp only [writeLoop]
    split_ifs <;> simp [flush, ih]

theorem initU_InvB (url uid : String) : InvB (initU url uid) :=
  ⟨le_refl _, minPartSize_le_maxPartSize, fun h => absurd rfl h, fun _ => rfl, rfl, rfl⟩

theorem initU_InvPos (url uid : String) : InvPos (initU url uid) :=
  fun h => absurd rfl h

theorem initU_InvS (url uid : String) : InvS (initU url uid) :=
  ⟨rfl, fun h => absurd rfl h, rfl⟩

theorem runWrites_main : ∀ (chunks : List Bytes) (u : Uploader),
    InvB u → InvPos u → u.closed = false → u.err = none →
    InvB (runWrites u chunks) ∧ InvPos (runWrites u chunks) ∧
    content (runWrites u chunks) = content u ++ chunks.flatten ∧
    (runWrites u chunks).closed = false ∧ (runWrites u chunks).err = none ∧
    (runWrites u chunks).url = u.url ∧ (runWrites u chunks).uploadId = u.uploadId ∧
    (InvS u → InvS (runWrites u chunks)) := by
  intro chunks
  induction chunks with
  | nil =>
    intro u hB hP hcl herr
    exact ⟨hB, hP, by simp [runWrites], hcl, herr, rfl, rfl, fun h => h⟩
  | cons c cs ih =>
    intro u hB hP hcl herr
    have hw : writeU u c = ((writeLoop (c.length + 1) u c).1,
        (writeLoop (c.length + 1) u c).2, none) := by
      simp [writeU, hcl, herr]
    have hrun : runWrites u (c :: cs) = runWrites (writeLoop (c.length + 1) u c).1 cs := by
      simp [runWrites, hw]
    obtain ⟨mB, mN, mC, mP, mS⟩ :=
      writeLoop_main (c.length + 1) u c hB (Nat.lt_succ_self _)
    obtain ⟨fc, fe, fu, fi⟩ := writeLoop_frame (c.length + 1) u c
    obtain ⟨rB, rP, rC, rcl, rerr, rurl, ruid, rS⟩ :=
      ih (writeLoop (c.length + 1) u c).1 mB (mP hP) (by rw [fc, hcl]) (by rw [fe, herr])
    refine ⟨by rwa [hrun], by rwa [hrun], ?_, by rwa [hrun], by rwa [hrun],
      by rw [hrun, rurl, fu], by rw [hrun, ruid, fi], fun hS => by rw [hrun]; exact rS (mS hS)⟩
    rw [hrun, rC, mC]
    simp [List.append_assoc]

theorem prepareClose_open {u : Uploader} (hcl : u.closed = false) (herr : u.err = none)
    (ar : Option Nat) :
    (prepareClose u ar).1.parts =
      u.parts ++ (if 0 < u.bufcap then
        [{ num := u.partCtr + 1, etag := "", data := u.data }] else []) ∧
    (prepareClose u ar).2.2 = none ∧
    (prepareClose u ar).2.1 =
      (if 0 < u.bufcap then [Action.flushPart (u.partCtr + 1)] else []) ∧
    (prepareClose u ar).1.closed = true ∧
    (prepareClose u ar).1.partCtr =
      (if 0 < u.bufcap then u.partCtr + 1 else u.partCtr) := by
  by_cases hb : 0 < u.bufcap <;> simp [prepareClose, hcl, herr, hb, flush]

theorem iter_le_max : ∀ (i : Nat), growth^[i] minPartSize ≤ maxPartSize
  | 0 => minPartSize_le_maxPartSize
  | i + 1 => by
    rw [Function.iterate_succ_apply']
    exact growth_le_max _

theorem iter_ge_min : ∀ (i : Nat), minPartSize ≤ growth^[i] minPartSize
  | 0 => le_refl _
  | i + 1 => by
    rw [Function.iterate_succ_apply']
    exact min_le_growth (iter_ge_min i)

theorem iter_mono {i j : Nat} (h : i ≤ j) :
    growth^[i] minPartSize ≤ growth^[j] minPartSize := by
  induction j with
  | zero =>
    have : i = 0 := Nat.le_zero.mp h
    simp [this]
  | succ j ihj =>
    rcases Nat.lt_or_ge i (j + 1) with hlt | hge
    · have hij : i ≤ j := Nat.lt_succ_iff.mp hlt
      refine le_trans (ihj hij) ?_
      rw [Function.iterate_succ_apply']
      exact le_growth (iter_le_max j)
    · have : i = j + 1 := le_antisymm h hge
      simp [this]

theorem sizesIter_length (n : Nat) : (sizesIter n).length = n := by
  simp [sizesIter]

theorem sizesIter_dropLast (n : Nat) : (sizesIter n).dropLast = sizesIter (n - 1) := by
  cases n with
  | zero => rfl
  | succ n =>
    rw [sizesIter_succ]
    simp

theorem sizesIter_sorted (n : Nat) : List.Sorted (· ≤ ·) (sizesIter n) := by
  unfold sizesIter
  rw [List.Sorted, List.pairwise_map]
  exact (List.pairwise_lt_range n).imp (fun h => iter_mono (Nat.le_of_lt h))

theorem sizesIter_mem_le {n s : Nat} (h : s ∈ sizesIter n) : s ≤ maxPartSize := by
  obtain ⟨i, _, rfl⟩ := List.mem_map.mp h
  exact iter_le_max i

theorem sizesIter_mem_ge {n s : Nat} (h : s ∈ sizesIter n) : minPartSize ≤ s := by
  obtain ⟨i, _, rfl⟩ := List.mem_map.mp h
  exact iter_ge_min i

theorem growth_ratio (s : Nat) : growth s = min (s * 1001 / 1000) maxPartSize := by
  unfold growth
  congr 1
  rw [show s * 1001 = s + s * 1000 from by ring]
  rw [Nat.add_mul_div_right _ _ (by norm_num)]
  omega

/-- C5: over any sequence of writes followed by the closing flush, the
parts partition the input bytes exactly; every part except possibly the
last has exactly the successive buffer target sizes `growth^[i] 5MiB`
(non-decreasing, each at least the minimum part size), every part is at
most the maximum part size, the initial target is the minimum part
size, and the growth step is `min(size * 1.001, maxPartSize)` (integer
floor). -/
theorem c5_part_sizing (url uid : String) (chunks : List Bytes) :
    ((((prepareClose (runWrites (initU url uid) chunks) none).1.parts).map Part.data).flatten
        = chunks.flatten)
    ∧ ((((prepareClose (runWrites (initU url uid) chunks) none).1.parts).map
          (fun (q : Part) => q.data.length)).dropLast =
        sizesIter (((prepareClose (runWrites (initU url uid) chunks) none).1.parts).length - 1))
    ∧ List.Sorted (· ≤ ·)
        ((((prepareClose (runWrites (initU url uid) chunks) none).1.parts).map
          (fun (q : Part) => q.data.length)).dropLast)
    ∧ (∀ sz ∈ ((prepareClose (runWrites (initU url uid) chunks) none).1.parts).map
          (fun (q : Part) => q.data.length), sz ≤ maxPartSize)
    ∧ (∀ sz ∈ (((prepareClose (runWrites (initU url uid) chunks) none).1.parts).map
          (fun (q : Part) => q.data.length)).dropLast, minPartSize ≤ sz)
    ∧ (initU url uid).bufsz = minPartSize
    ∧ (∀ s, growth s = min (s * 1001 / 1000) maxPartSize) := by
  obtain ⟨rB, rP, rC, rcl, rerr, rurl, ruid, rS⟩ :=
    runWrites_main chunks (initU url uid) (initU_InvB url uid) (initU_InvPos url uid) rfl rfl
  obtain ⟨hS1, hS2, hS3⟩ := rS (initU_InvS url uid)
  obtain ⟨pparts, pnone, pacts, pclosed, pctr⟩ := prepareClose_open rcl rerr none
  have hcontent : content (runWrites (initU url uid) chunks) = chunks.flatten := by
    rw [rC]
    simp [content, initU]
  obtain ⟨g1, g2, g3, g4, g5, g6⟩ := rB
  rw [pparts]
  by_cases hb : 0 < (runWrites (initU url uid) chunks).bufcap
  · rw [if_pos hb]
    have hsz : ((runWrites (initU url uid) chunks).parts ++
        [({ num := (runWrites (initU url uid) chunks).partCtr + 1, etag := "",
            data := (runWrites (initU url uid) chunks).data } : Part)]).map
        (fun (q : Part) => q.data.length) =
        sizesIter (runWrites (initU url uid) chunks).parts.length ++
          [((runWrites (initU url uid) chunks).data).length] := by
      rw [List.map_append, hS1]
      simp
    refine ⟨?_, ?_, ?_, ?_, ?_, rfl, growth_ratio⟩
    · rw [List.map_append, List.flatten_append, ← hcontent]
      simp [content]
    · rw [hsz, List.dropLast_concat]
      simp [List.length_append, sizesIter_length]
    · rw [hsz, List.dropLast_concat]
      exact sizesIter_sorted _
    · rw [hsz]
      intro sz hmem
      rcases List.mem_append.mp hmem with hmem | hmem
      · exact sizesIter_mem_le hmem
      · obtain ⟨hlt, hle⟩ := g3 (by omega)
        have : sz = ((runWrites (initU url uid) chunks).data).length :=
          List.mem_singleton.mp hmem
        omega
    · rw [hsz, List.dropLast_concat]
      intro sz hmem
      exact sizesIter_mem_ge hmem
  · rw [if_neg hb]
    have hdata : (runWrites (initU url uid) chunks).data = [] := g4 (by omega)
    refine ⟨?_, ?_, ?_, ?_, ?_, rfl, growth_ratio⟩
    · rw [List.append_nil, ← hcontent]
      simp [content, hdata]
    · rw [List.append_nil, hS1, sizesIter_dropLast]
    · rw [List.append_nil, hS1, sizesIter_dropLast]
      exact sizesIter_sorted _
    · rw [List.append_nil, hS1]
      intro sz hmem
      exact sizesIter_mem_le hmem
    · rw [List.append_nil, hS1, sizesIter_dropLast]
      intro sz hmem
      exact sizesIter_mem_ge hmem

/-- Witness for C5 at a concrete one-byte upload. -/
theorem c5_witness :
    (((prepareClose (runWrites (initU "" "") [[7]]) none).1.parts).map Part.data).flatten
      = ([[7]] : List Bytes).flatten :=
  (c5_part_sizing "" "" [[7]]).1

theorem commitLoop_body {co : Nat → Option Nat} {body : List (Nat × String)} :
    ∀ (n i : Nat) (last : Option Nat) (b : List (Nat × String)),
      Action.commitCall b ∈ (commitLoop co body n i last).1 → b = body := by
  intro n
  induction n with
  | zero =>
    intro i last b h
    simp [commitLoop] at h
  | succ n ihn =>
    intro i last b h
    cases hco : co i with
    | some e =>
      rw [commitLoop, hco] at h
      simp at h
      rcases h with h | h
      · exact h
      · exact ihn (i + 1) (some e) b h
    | none =>
      rw [commitLoop, hco] at h
      simpa using h

/-- C7: after any write sequence, a successful close sends a completion
body listing `(partNumber, eTag)` pairs whose numbers are exactly
`1, 2, …` in strictly ascending order (equivalently the `i`-th
completed part is numbered `i+1`), independent of the order in which
the racing part uploads finished. -/
theorem c7_ascending_completion (url uid : String) (chunks : List Bytes)
    (co : Nat → Option Nat) (ar : Option Nat) :
    (∀ i (h : i < ((closeGo (runWrites (initU url uid) chunks) co ar).1.parts).length),
        (((closeGo (runWrites (initU url uid) chunks) co ar).1.parts).get ⟨i, h⟩).num = i + 1)
    ∧ (∀ b, Action.commitCall b ∈ (closeGo (runWrites (initU url uid) chunks) co ar).2.1 →
        b.map Prod.fst = List.range' 1 b.length) := by
  obtain ⟨rB, rP, rC, rcl, rerr, rurl, ruid, rS⟩ :=
    runWrites_main chunks (initU url uid) (initU_InvB url uid) (initU_InvPos url uid) rfl rfl
  obtain ⟨g1, g2, g3, g4, g5, g6⟩ := rB
  obtain ⟨pparts, pnone, pacts, pclosed, pctr⟩ := prepareClose_open rcl rerr ar
  have hnums : ((prepareClose (runWrites (initU url uid) chunks) ar).1.parts).map Part.num =
      List.range' 1 ((prepareClose (runWrites (initU url uid) chunks) ar).1.parts).length := by
    rw [pparts]
    by_cases hb : 0 < (runWrites (initU url uid) chunks).bufcap
    · rw [if_pos hb, List.map_append, g6, g5]
      simp only [List.map_cons, List.map_nil, List.length_append, List.length_cons,
        List.length_nil]
      have hlen1 : (runWrites (initU url uid) chunks).parts.length + (0 + 1) =
          (runWrites (initU url uid) chunks).parts.length + 1 := by omega
      rw [hlen1, List.range'_concat]
      simp
      omega
    · rw [if_neg hb]
      simp [g6]
  have hclose1 : (closeGo (runWrites (initU url uid) chunks) co ar).1 =
      (prepareClose (runWrites (initU url uid) chunks) ar).1 := by
    simp [closeGo, pnone]
  have hacts : (closeGo (runWrites (initU url uid) chunks) co ar).2.1 =
      (prepareClose (runWrites (initU url uid) chunks) ar).2.1 ++
        (commitLoop co
          (((prepareClose (runWrites (initU url uid) chunks) ar).1.parts).map
            (fun pt => (pt.num, pt.etag))) 3 0 none).1 := by
    simp [closeGo, pnone]
  have key : ∀ (q : List Part) (s : Nat), q.map Part.num = List.range' s q.length →
      ∀ i (h : i < q.length), (q.get ⟨i, h⟩).num = s + i := by
    intro q
    induction q with
    | nil =>
      intro s _ i h
      exact absurd h (by simp)
    | cons a q ihq =>
      intro s hq i h
      rw [List.length_cons, List.range'_succ] at hq
      injection hq with hq1 hq2
      cases i with
      | zero => simpa using hq1
      | succ i =>
        have hr := ihq (s + 1) hq2 i (by simpa using h)
        rw [List.get_cons_succ]
        omega
  constructor
  · intro i h
    have hnums' : ((closeGo (runWrites (initU url uid) chunks) co ar).1.parts).map Part.num =
        List.range' 1 ((closeGo (runWrites (initU url uid) chunks) co ar).1.parts).length := by
      rw [hclose1]
      exact hnums
    have := key _ 1 hnums' i h
    omega
  · intro b hb
    rw [hacts] at hb
    rcases List.mem_append.mp hb with hb | hb
    · rw [pacts] at hb
      by_cases hcap : 0 < (runWrites (initU url uid) chunks).bufcap
      · rw [if_pos hcap] at hb
        simp at hb
      · rw [if_neg hcap] at hb
        simp at hb
    · have hbody := commitLoop_body 3 0 none b hb
      subst hbody
      have : (((prepareClose (runWrites (initU url uid) chunks) ar).1.parts).map
          (fun pt => (pt.num, pt.etag))).map Prod.fst =
          ((prepareClose (runWrites (initU url uid) chunks) ar).1.parts).map Part.num := by
        simp
      rw [this, hnums]
      congr 1
      simp

/-- Witness for C7: the single part of a one-byte upload is numbered 1. -/
theorem c7_witness :
    (((closeGo (runWrites (initU "" "") [[7]]) (fun _ => none) none).1.parts).get
      ⟨0, by decide⟩).num = 1 :=
  (c7_ascending_completion "" "" [[7]] (fun _ => none) none).1 0 (by decide)

theorem absOf_flush (u : Uploader) : absOf (flush u) = absFlush (absOf u) := by
  simp [absOf, flush, absFlush]

theorem absOf_bufcap (u : Uploader) : (absOf u).bufcap = u.bufcap := rfl

theorem absOf_bufsz (u : Uploader) : (absOf u).bufsz = u.bufsz := rfl

theorem absOf_fill (u : Uploader) : (absOf u).fill = List.length u.data := rfl

theorem writeLoop_abs : ∀ (fuel : Nat) (u : Uploader) (p : Bytes),
    absOf (writeLoop fuel u p).1 = (absWriteLoop fuel (absOf u) p.length).1 ∧
    (writeLoop fuel u p).2 = (absWriteLoop fuel (absOf u) p.length).2 := by
  intro fuel
  induction fuel with
  | zero => intro u p; exact ⟨rfl, rfl⟩
  | succ fuel ih =>
    intro u p
    by_cases hp : p = []
    · subst hp
      simp [writeLoop, absWriteLoop]
    · have hn : ¬ (List.length p = 0) := by simpa [List.length_eq_zero] using hp
      simp only [writeLoop, absWriteLoop, if_neg hp, if_neg hn, absOf_bufcap,
        absOf_bufsz, absOf_fill]
      by_cases hcap : u.bufcap = 0
      · simp only [if_pos hcap]
        have hc1 : List.length (u.data ++
            List.take (min (u.bufsz - List.length u.data) (List.length p)) p) =
            List.length u.data + min (u.bufsz - List.length u.data) (List.length p) := by
          rw [List.length_append, List.length_take, min_assoc, min_self]
        by_cases hr : min (u.bufsz - List.length u.data) (List.length p) = 0
        · simp [hr, absOf]
        · rw [if_neg hr, if_neg hr]
          simp only [hc1]
          by_cases hfill : List.length u.data +
              min (u.bufsz - List.length u.data) (List.length p) = u.bufsz
          · rw [if_pos hfill, if_pos hfill]
            have hrec := ih (flush { u with
                bufcap := u.bufsz
                bufsz := min (u.bufsz + u.bufsz / 1000) maxPartSize
                data := u.data ++
                  List.take (min (u.bufsz - List.length u.data) (List.length p)) p })
              (List.drop (min (u.bufsz - List.length u.data) (List.length p)) p)
            rw [absOf_flush] at hrec
            constructor
            · rw [hrec.1]
              congr 1 <;> simp [absOf, absFlush, hc1, List.length_drop]
            · rw [hrec.2]
              congr 1 <;> simp [absOf, absFlush, hc1, List.length_drop]
          · rw [if_neg hfill, if_neg hfill]
            have hrec := ih { u with
                bufcap := u.bufsz
                bufsz := min (u.bufsz + u.bufsz / 1000) maxPartSize
                data := u.data ++
                  List.take (min (u.bufsz - List.length u.data) (List.length p)) p }
              (List.drop (min (u.bufsz - List.length u.data) (List.length p)) p)
            constructor
            · rw [hrec.1]
              congr 1 <;> simp [absOf, hc1, List.length_drop]
            · rw [hrec.2]
              congr 1 <;> simp [absOf, hc1, List.length_drop]
      · simp only [if_neg hcap, absOf_bufcap, absOf_bufsz, absOf_fill]
        have hc1 : List.length (u.data ++
            List.take (min (u.bufcap - List.length u.data) (List.length p)) p) =
            List.length u.data + min (u.bufcap - List.length u.data) (List.length p) := by
          rw [List.length_append, List.length_take, min_assoc, min_self]
        by_cases hr : min (u.bufcap - List.length u.data) (List.length p) = 0
        · simp [hr, absOf]
        · simp only [if_neg hr]
          simp only [hc1]
          by_cases hfill : List.length u.data +
              min (u.bufcap - List.length u.data) (List.length p) = u.bufcap
          · simp only [if_pos hfill]
            have hrec := ih (flush { u with
                data := u.data ++
                  List.take (min (u.bufcap - List.length u.data) (List.length p)) p })
              (List.drop (min (u.bufcap - List.length u.data) (List.length p)) p)
            rw [absOf_flush] at hrec
            constructor
            · rw [hrec.1]
              congr 1 <;> simp [absOf, absFlush, hc1, List.length_drop]
            · rw [hrec.2]
              congr 1 <;> simp [absOf, absFlush, hc1, List.length_drop]
          · simp only [if_neg hfill]
            have hrec := ih { u with
                data := u.data ++
                  List.take (min (u.bufcap - List.length u.data) (List.length p)) p }
              (List.drop (min (u.bufcap - List.length u.data) (List.length p)) p)
            constructor
            · rw [hrec.1]
              congr 1 <;> simp [absOf, hc1, List.length_drop]
            · rw [hrec.2]
              congr 1 <;> simp [absOf, hc1, List.length_drop]

theorem absWriteLoop_zero_input : ∀ (fuel : Nat) (a : AbsU), absWriteLoop fuel a 0 = (a, 0) := by
  intro fuel a
  cases fuel <;> simp [absWriteLoop]

theorem absWriteLoop_mono : ∀ (f f' : Nat) (a : AbsU) (n : Nat), f ≤ f' →
    (absWriteLoop f a n).2 = n → absWriteLoop f' a n = absWriteLoop f a n := by
  intro f
  induction f with
  | zero =>
    intro f' a n h hc
    have hn : n = 0 := by simpa [absWriteLoop] using hc.symm
    subst hn
    rw [absWriteLoop_zero_input, absWriteLoop_zero_input]
  | succ f ihf =>
    intro f' a n h hc
    obtain ⟨f'', rfl⟩ : ∃ f'', f' = f'' + 1 := ⟨f' - 1, by omega⟩
    by_cases hn : n = 0
    · subst hn
      rw [absWriteLoop_zero_input, absWriteLoop_zero_input]
    · have hf : f ≤ f'' := by omega
      simp only [absWriteLoop, if_neg hn] at hc ⊢
      by_cases hcap : a.bufcap = 0
      · simp only [if_pos hcap] at hc ⊢
        by_cases hr : min (a.bufsz - a.fill) n = 0
        · simp only [if_pos hr] at hc
          exact absurd hc.symm hn
        · simp only [if_neg hr] at hc ⊢
          by_cases hfill : a.fill + min (a.bufsz - a.fill) n = a.bufsz
          · simp only [if_pos hfill] at hc ⊢
            have hrest : (absWriteLoop f
                (absFlush
                  { bufsz := min (a.bufsz + a.bufsz / 1000) maxPartSize, bufcap := a.bufsz,
                    fill := a.fill + min (a.bufsz - a.fill) n, sizes := a.sizes })
                (n - min (a.bufsz - a.fill) n)).2 = n - min (a.bufsz - a.fill) n := by
              omega
            rw [ihf f'' _ _ hf hrest]
          · simp only [if_neg hfill] at hc ⊢
            have hrest : (absWriteLoop f
                { bufsz := min (a.bufsz + a.bufsz / 1000) maxPartSize, bufcap := a.bufsz,
                  fill := a.fill + min (a.bufsz - a.fill) n, sizes := a.sizes }
                (n - min (a.bufsz - a.fill) n)).2 = n - min (a.bufsz - a.fill) n := by
              omega
            rw [ihf f'' _ _ hf hrest]
      · simp only [if_neg hcap] at hc ⊢
        by_cases hr : min (a.bufcap - a.fill) n = 0
        · simp only [if_pos hr] at hc
          exact absurd hc.symm hn
        · simp only [if_neg hr] at hc ⊢
          by_cases hfill : a.fill + min (a.bufcap - a.fill) n = a.bufcap
          · simp only [if_pos hfill] at hc ⊢
            have hrest : (absWriteLoop f
                (absFlush
                  { bufsz := a.bufsz, bufcap := a.bufcap,
                    fill := a.fill + min (a.bufcap - a.fill) n, sizes := a.sizes })
                (n - min (a.bufcap - a.fill) n)).2 = n - min (a.bufcap - a.fill) n := by
              omega
            rw [ihf f'' _ _ hf hrest]
          · simp only [if_neg hfill] at hc ⊢
            have hrest : (absWriteLoop f
                { bufsz := a.bufsz, bufcap := a.bufcap,
                  fill := a.fill + min (a.bufcap - a.fill) n, sizes := a.sizes }
                (n - min (a.bufcap - a.fill) n)).2 = n - min (a.bufcap - a.fill) n := by
              omega
            rw [ihf f'' _ _ hf hrest]

theorem absOf_sizes (u : Uploader) :
    (absOf u).sizes = u.parts.map (fun (q : Part) => q.data.length) := rfl

theorem writeU_open (u : Uploader) (p : Bytes) (h1 : u.closed = false) (h2 : u.err = none) :
    (writeU u p).1 = (writeLoop (p.length + 1) u p).1 := by
  simp [writeU, h1, h2]

theorem abs_write_open (u : Uploader) (p : Bytes) (h1 : u.closed = false)
    (h2 : u.err = none) :
    absOf (writeU u p).1 = (absWriteLoop (p.length + 1) (absOf u) p.length).1 := by
  rw [writeU_open u p h1 h2]
  exact (writeLoop_abs (p.length + 1) u p).1

theorem unbroken_abs :
    absOf (writeU (initU "" "") (List.replicate 10491002 0)).1 =
      ⟨5253370, 0, 0, [5242880, 5248122]⟩ := by
  have h0 : absOf (initU "" "") = ⟨5242880, 0, 0, []⟩ := rfl
  have hs : absWriteLoop 5 ⟨5242880, 0, 0, []⟩ 10491002 =
      (⟨5253370, 0, 0, [5242880, 5248122]⟩, 10491002) := by decide
  have hm : absWriteLoop (10491002 + 1) ⟨5242880, 0, 0, []⟩ 10491002 =
      absWriteLoop 5 ⟨5242880, 0, 0, []⟩ 10491002 :=
    absWriteLoop_mono 5 (10491002 + 1) _ _ (by norm_num) (by rw [hs])
  have hthis := abs_write_open (initU "" "") (List.replicate 10491002 0) rfl rfl
  have hlen : (List.replicate 10491002 0).length = 10491002 :=
    List.length_replicate 10491002 0
  rw [h0, hlen] at hthis
  rw [hthis, hm, hs]

theorem unbroken_sizes :
    ((prepareClose (writeU (initU "" "") (List.replicate 10491002 0)).1 none).1.parts).map
      (fun (q : Part) => q.data.length) = [5242880, 5248122] := by
  have habs := unbroken_abs
  have hcl : (writeU (initU "" "") (List.replicate 10491002 0)).1.closed = false := by
    rw [writeU_open (initU "" "") _ rfl rfl]
    exact (writeLoop_frame _ _ _).1
  have herr : (writeU (initU "" "") (List.replicate 10491002 0)).1.err = none := by
    rw [writeU_open (initU "" "") _ rfl rfl]
    exact (writeLoop_frame _ _ _).2.1
  have hcap : (writeU (initU "" "") (List.replicate 10491002 0)).1.bufcap = 0 := by
    have h2 := congrArg AbsU.bufcap habs
    rw [absOf_bufcap] at h2
    exact h2
  obtain ⟨pparts, -, -, -, -⟩ := prepareClose_open hcl herr none
  rw [pparts, if_neg (by omega), List.append_nil]
  have h3 := congrArg AbsU.sizes habs
  rw [absOf_sizes] at h3
  exact h3

theorem paused_abs :
    absOf (writeU (initU "" "") (List.replicate 5242880 0)).1 =
      ⟨5248122, 0, 0, [5242880]⟩ := by
  have h0 : absOf (initU "" "") = ⟨5242880, 0, 0, []⟩ := rfl
  have hs : absWriteLoop 5 ⟨5242880, 0, 0, []⟩ 5242880 =
      (⟨5248122, 0, 0, [5242880]⟩, 5242880) := by decide
  have hm : absWriteLoop (5242880 + 1) ⟨5242880, 0, 0, []⟩ 5242880 =
      absWriteLoop 5 ⟨5242880, 0, 0, []⟩ 5242880 :=
    absWriteLoop_mono 5 (5242880 + 1) _ _ (by norm_num) (by rw [hs])
  have hthis := abs_write_open (initU "" "") (List.replicate 5242880 0) rfl rfl
  have hlen : (List.replicate 5242880 0).length = 5242880 :=
    List.length_replicate 5242880 0
  rw [h0, hlen] at hthis
  rw [hthis, hm, hs]

theorem pause_empty (u : Uploader) (hcl : u.closed = false) (herr : u.err = none)
    (hcap : u.bufcap = 0) (hdata : u.data = []) (ar : Option Nat) :
    (pause u ar).2.2 = Except.ok
      { buffer := [], url := u.url, uploadId := u.uploadId,
        part := u.partCtr, parts := u.parts } := by
  simp [pause, prepareClose, hcl, herr, hcap, hdata]

theorem pause_empty_fields (u : Uploader) (hcl : u.closed = false) (herr : u.err = none)
    (hcap : u.bufcap = 0) (hdata : u.data = []) (ar : Option Nat) (st : UploaderState)
    (hst : (pause u ar).2.2 = Except.ok st) :
    st.buffer = [] ∧ st.url = u.url ∧ st.uploadId = u.uploadId ∧
    st.part = u.partCtr ∧ st.parts = u.parts := by
  rw [pause_empty u hcl herr hcap hdata ar] at hst
  have hfields := Except.ok.inj hst
  subst hfields
  exact ⟨rfl, rfl, rfl, rfl, rfl⟩

theorem paused_snapshot :
    (pause (writeU (initU "" "") (List.replicate 5242880 0)).1 none).2.2 =
      Except.ok
        { buffer := []
          url := (writeU (initU "" "") (List.replicate 5242880 0)).1.url
          uploadId := (writeU (initU "" "") (List.replicate 5242880 0)).1.uploadId
          part := (writeU (initU "" "") (List.replicate 5242880 0)).1.partCtr
          parts := (writeU (initU "" "") (List.replicate 5242880 0)).1.parts } := by
  have habs := paused_abs
  have hcl : (writeU (initU "" "") (List.replicate 5242880 0)).1.closed = false := by
    rw [writeU_open (initU "" "") _ rfl rfl]
    exact (writeLoop_frame _ _ _).1
  have herr : (writeU (initU "" "") (List.replicate 5242880 0)).1.err = none := by
    rw [writeU_open (initU "" "") _ rfl rfl]
    exact (writeLoop_frame _ _ _).2.1
  have hcap : (writeU (initU "" "") (List.replicate 5242880 0)).1.bufcap = 0 := by
    have h2 := congrArg AbsU.bufcap habs
    rw [absOf_bufcap] at h2
    exact h2
  have hdata : (writeU (initU "" "") (List.replicate 5242880 0)).1.data = [] := by
    have h2 := congrArg AbsU.fill habs
    rw [absOf_fill] at h2
    exact List.length_eq_zero.mp h2
  exact pause_empty _ hcl herr hcap hdata none

theorem close_sizes_of (u2 : Uploader) (hcl : u2.closed = false) (herr : u2.err = none)
    (hcap : u2.bufcap = 5242880) (hfill : u2.data.length = 5242)
    (hsz : u2.parts.map (fun (q : Part) => q.data.length) = [5242880, 5242880]) :
    ((prepareClose u2 none).1.parts).map (fun (q : Part) => q.data.length) =
      [5242880, 5242880, 5242] := by
  obtain ⟨pparts, -, -, -, -⟩ := prepareClose_open hcl herr none
  rw [pparts, if_pos (by omega), List.map_append, hsz]
  dsimp only [List.map_cons, List.map_nil]
  rw [hfill]
  rfl

theorem resumed_sizes (st : UploaderState)
    (hst : (pause (writeU (initU "" "") (List.replicate 5242880 0)).1 none).2.2 =
      Except.ok st) :
    ((prepareClose (writeU (resume st) (List.replicate 5248122 0)).1 none).1.parts).map
      (fun (q : Part) => q.data.length) = [5242880, 5242880, 5242] := by
  have habsp := paused_abs
  have hcl0 : (writeU (initU "" "") (List.replicate 5242880 0)).1.closed = false := by
    rw [writeU_open (initU "" "") _ rfl rfl]
    exact (writeLoop_frame _ _ _).1
  have herr0 : (writeU (initU "" "") (List.replicate 5242880 0)).1.err = none := by
    rw [writeU_open (initU "" "") _ rfl rfl]
    exact (writeLoop_frame _ _ _).2.1
  have hcap0 : (writeU (initU "" "") (List.replicate 5242880 0)).1.bufcap = 0 := by
    have h2 := congrArg AbsU.bufcap habsp
    rw [absOf_bufcap] at h2
    exact h2
  have hdata0 : (writeU (initU "" "") (List.replicate 5242880 0)).1.data = [] := by
    have h2 := congrArg AbsU.fill habsp
    rw [absOf_fill] at h2
    exact List.length_eq_zero.mp h2
  obtain ⟨hbuf, -, -, -, hparts⟩ :=
    pause_empty_fields _ hcl0 herr0 hcap0 hdata0 none st hst
  have hsz0 : ((writeU (initU "" "") (List.replicate 5242880 0)).1.parts).map
      (fun (q : Part) => q.data.length) = [5242880] := by
    have h2 := congrArg AbsU.sizes habsp
    rw [absOf_sizes] at h2
    exact h2
  have habs0 : absOf (resume st) = ⟨5242880, 5242880, 0, [5242880]⟩ := by
    have h0 : absOf (resume st) =
        ⟨5242880, 5242880, st.buffer.length,
          st.parts.map (fun (q : Part) => q.data.length)⟩ := rfl
    rw [h0, hbuf, hparts, hsz0]
    rfl
  have hs : absWriteLoop 5 ⟨5242880, 5242880, 0, [5242880]⟩ 5248122 =
      (⟨5248122, 5242880, 5242, [5242880, 5242880]⟩, 5248122) := by decide
  have hm : absWriteLoop (5248122 + 1) ⟨5242880, 5242880, 0, [5242880]⟩ 5248122 =
      absWriteLoop 5 ⟨5242880, 5242880, 0, [5242880]⟩ 5248122 :=
    absWriteLoop_mono 5 (5248122 + 1) _ _ (by norm_num) (by rw [hs])
  have habs := abs_write_open (resume st) (List.replicate 5248122 0) rfl rfl
  rw [habs0, List.length_replicate, hm, hs] at habs
  have hcl : (writeU (resume st) (List.replicate 5248122 0)).1.closed = false := by
    rw [writeU_open (resume st) _ rfl rfl]
    exact (writeLoop_frame _ _ _).1
  have herr : (writeU (resume st) (List.replicate 5248122 0)).1.err = none := by
    rw [writeU_open (resume st) _ rfl rfl]
    exact (writeLoop_frame _ _ _).2.1
  have hcap : (writeU (resume st) (List.replicate 5248122 0)).1.bufcap = 5242880 := by
    have h2 := congrArg AbsU.bufcap habs
    rw [absOf_bufcap] at h2
    exact h2
  have hfill : ((writeU (resume st) (List.replicate 5248122 0)).1.data).length = 5242 := by
    have h2 := congrArg AbsU.fill habs
    rw [absOf_fill] at h2
    exact h2
  have hsz : ((writeU (resume st) (List.replicate 5248122 0)).1.parts).map
      (fun (q : Part) => q.data.length) = [5242880, 5242880] := by
    have h2 := congrArg AbsU.sizes habs
    rw [absOf_sizes] at h2
    exact h2
  exact close_sizes_of _ hcl herr hcap hfill hsz

theorem close_flatten {u : Uploader} (hB : InvB u) (hcl : u.closed = false)
    (herr : u.err = none) (ar : Option Nat) :
    (((prepareClose u ar).1.parts).map Part.data).flatten = content u := by
  obtain ⟨pparts, -, -, -, -⟩ := prepareClose_open hcl herr ar
  rw [pparts]
  by_cases hb : 0 < u.bufcap
  · rw [if_pos hb, List.map_append, List.flatten_append]
    simp [content]
  · rw [if_neg hb, List.append_nil]
    have hdata : u.data = [] := hB.2.2.2.1 (by omega)
    simp [content, hdata]

theorem content_write_init (url uid : String) (p : Bytes) :
    content (writeU (initU url uid) p).1 = p := by
  rw [writeU_open (initU url uid) _ rfl rfl]
  have := (writeLoop_main (p.length + 1) (initU url uid) p (initU_InvB url uid)
    (Nat.lt_succ_self _)).2.2.1
  rw [this]
  simp [content, initU]

/-- C9 (amended): `Pause` under a sub-minimum buffered remainder
captures exactly the buffered bytes, URL, upload id, part counter and
completed-parts list; `Resume` restores all of them; and writing the
remaining bytes and closing yields a committed byte sequence identical
to one unbroken session — although the resumed session's part
boundaries may differ, because the buffer growth size restarts at the
minimum part size. -/
theorem c9_pause_resume (url uid : String) (pre post : Bytes)
    (hsmall : ((writeU (initU url uid) pre).1.data).length < minPartSize)
    (st : UploaderState)
    (hst : (pause (writeU (initU url uid) pre).1 none).2.2 = Except.ok st) :
    st.url = url ∧ st.uploadId = uid
    ∧ st.part = (writeU (initU url uid) pre).1.partCtr
    ∧ st.parts = (writeU (initU url uid) pre).1.parts
    ∧ st.buffer = (writeU (initU url uid) pre).1.data
    ∧ (resume st).url = url ∧ (resume st).uploadId = uid
    ∧ (resume st).partCtr = st.part ∧ (resume st).parts = st.parts
    ∧ (resume st).data = st.buffer
    ∧ (((prepareClose (writeU (resume st) post).1 none).1.parts).map Part.data).flatten
        = pre ++ post
    ∧ (((prepareClose (writeU (initU url uid) (pre ++ post)).1 none).1.parts).map
        Part.data).flatten = pre ++ post := by
  have hwo := writeU_open (initU url uid) pre rfl rfl
  obtain ⟨mB, mN, mC, mP, mS⟩ :=
    writeLoop_main (pre.length + 1) (initU url uid) pre (initU_InvB url uid)
      (Nat.lt_succ_self _)
  have hB1 : InvB (writeU (initU url uid) pre).1 := by rw [hwo]; exact mB
  have hP1 : InvPos (writeU (initU url uid) pre).1 := by
    rw [hwo]; exact mP (initU_InvPos url uid)
  obtain ⟨fc, fe, fu, fi⟩ := writeLoop_frame (pre.length + 1) (initU url uid) pre
  have hcl : (writeU (initU url uid) pre).1.closed = false := by rw [hwo]; exact fc
  have herr : (writeU (initU url uid) pre).1.err = none := by rw [hwo]; exact fe
  have hurl : (writeU (initU url uid) pre).1.url = url := by rw [hwo]; exact fu
  have huid : (writeU (initU url uid) pre).1.uploadId = uid := by rw [hwo]; exact fi
  have hcont1 : content (writeU (initU url uid) pre).1 = pre := content_write_init url uid pre
  have hpform : (pause (writeU (initU url uid) pre).1 none).2.2 =
      Except.ok
        { buffer := (writeU (initU url uid) pre).1.data
          url := (writeU (initU url uid) pre).1.url
          uploadId := (writeU (initU url uid) pre).1.uploadId
          part := (writeU (initU url uid) pre).1.partCtr
          parts := (writeU (initU url uid) pre).1.parts } := by
    by_cases hd : (writeU (initU url uid) pre).1.data = []
    · have hbc : (writeU (initU url uid) pre).1.bufcap = 0 := by
        by_contra hne
        have := hP1 hne
        rw [hd] at this
        simp at this
      simp [pause, prepareClose, hd, hcl, herr, hbc]
    · have hd' : 0 < ((writeU (initU url uid) pre).1.data).length :=
        List.length_pos.mpr hd
      simp [pause, prepareClose, hcl, herr, hd', hsmall]
  rw [hpform] at hst
  have hst' := Except.ok.inj hst
  subst hst'
  have hBr : InvB (resume
      { buffer := (writeU (initU url uid) pre).1.data
        url := (writeU (initU url uid) pre).1.url
        uploadId := (writeU (initU url uid) pre).1.uploadId
        part := (writeU (initU url uid) pre).1.partCtr
        parts := (writeU (initU url uid) pre).1.parts }) := by
    refine ⟨le_refl _, minPartSize_le_maxPartSize,
      fun _ => ⟨hsmall, minPartSize_le_maxPartSize⟩, ?_, hB1.2.2.2.2.1, hB1.2.2.2.2.2⟩
    intro h
    have := minPartSize_pos
    exact absurd (show minPartSize = 0 from h) (by omega)
  have hcontr : content (resume
      { buffer := (writeU (initU url uid) pre).1.data
        url := (writeU (initU url uid) pre).1.url
        uploadId := (writeU (initU url uid) pre).1.uploadId
        part := (writeU (initU url uid) pre).1.partCtr
        parts := (writeU (initU url uid) pre).1.parts }) = pre := by
    have h0 : content (resume
        { buffer := (writeU (initU url uid) pre).1.data
          url := (writeU (initU url uid) pre).1.url
          uploadId := (writeU (initU url uid) pre).1.uploadId
          part := (writeU (initU url uid) pre).1.partCtr
          parts := (writeU (initU url uid) pre).1.parts }) =
        content (writeU (initU url uid) pre).1 := rfl
    rw [h0]
    exact hcont1
  refine ⟨hurl, huid, rfl, rfl, rfl, hurl, huid, rfl, rfl, rfl, ?_, ?_⟩
  · obtain ⟨rB, rN, rC, rP, rS⟩ :=
      writeLoop_main (post.length + 1) (resume
        { buffer := (writeU (initU url uid) pre).1.data
          url := (writeU (initU url uid) pre).1.url
          uploadId := (writeU (initU url uid) pre).1.uploadId
          part := (writeU (initU url uid) pre).1.partCtr
          parts := (writeU (initU url uid) pre).1.parts }) post hBr (Nat.lt_succ_self _)
    have hwo2 := writeU_open (resume
        { buffer := (writeU (initU url uid) pre).1.data
          url := (writeU (initU url uid) pre).1.url
          uploadId := (writeU (initU url uid) pre).1.uploadId
          part := (writeU (initU url uid) pre).1.partCtr
          parts := (writeU (initU url uid) pre).1.parts }) post rfl rfl
    have hB2 : InvB (writeU (resume
        { buffer := (writeU (initU url uid) pre).1.data
          url := (writeU (initU url uid) pre).1.url
          uploadId := (writeU (initU url uid) pre).1.uploadId
          part := (writeU (initU url uid) pre).1.partCtr
          parts := (writeU (initU url uid) pre).1.parts }) post).1 := by rw [hwo2]; exact rB
    obtain ⟨fc2, fe2, -, -⟩ := writeLoop_frame (post.length + 1) (resume
        { buffer := (writeU (initU url uid) pre).1.data
          url := (writeU (initU url uid) pre).1.url
          uploadId := (writeU (initU url uid) pre).1.uploadId
          part := (writeU (initU url uid) pre).1.partCtr
          parts := (writeU (initU url uid) pre).1.parts }) post
    have hcl2 : (writeU (resume
        { buffer := (writeU (initU url uid) pre).1.data
          url := (writeU (initU url uid) pre).1.url
          uploadId := (writeU (initU url uid) pre).1.uploadId
          part := (writeU (initU url uid) pre).1.partCtr
          parts := (writeU (initU url uid) pre).1.parts }) post).1.closed = false := by rw [hwo2]; exact fc2
    have herr2 : (writeU (resume
        { buffer := (writeU (initU url uid) pre).1.data
          url := (writeU (initU url uid) pre).1.url
          uploadId := (writeU (initU url uid) pre).1.uploadId
          part := (writeU (initU url uid) pre).1.partCtr
          parts := (writeU (initU url uid) pre).1.parts }) post).1.err = none := by rw [hwo2]; exact fe2
    rw [close_flatten hB2 hcl2 herr2 none, hwo2, rC, hcontr]
  · obtain ⟨rB, rN, rC, rP, rS⟩ :=
      writeLoop_main ((pre ++ post).length + 1) (initU url uid) (pre ++ post)
        (initU_InvB url uid) (Nat.lt_succ_self _)
    have hwo2 := writeU_open (initU url uid) (pre ++ post) rfl rfl
    have hB2 : InvB (writeU (initU url uid) (pre ++ post)).1 := by rw [hwo2]; exact rB
    obtain ⟨fc2, fe2, -, -⟩ := writeLoop_frame ((pre ++ post).length + 1) (initU url uid)
      (pre ++ post)
    have hcl2 : (writeU (initU url uid) (pre ++ post)).1.closed = false := by
      rw [hwo2]; exact fc2
    have herr2 : (writeU (initU url uid) (pre ++ post)).1.err = none := by
      rw [hwo2]; exact fe2
    rw [close_flatten hB2 hcl2 herr2 none]
    exact content_write_init url uid (pre ++ post)

/-- C9 (counterexample): pausing after writing 5242880 bytes and resuming to
write the remaining 5248122 bytes commits parts of sizes
[5242880, 5242880, 5242], whereas one unbroken session writing all
10491002 bytes commits parts of sizes [5242880, 5248122]: the committed
part sequences differ, refuting "produces the same committed part
sequence". -/
theorem c9_counterexample :
    (((prepareClose (writeU (initU "" "") (List.replicate 10491002 0)).1 none).1.parts).map
        (fun (q : Part) => q.data.length)) = [5242880, 5248122]
    ∧ ((pause (writeU (initU "" "") (List.replicate 5242880 0)).1 none).2.2).map
        (fun st =>
          ((prepareClose (writeU (resume st) (List.replicate 5248122 0)).1 none).1.parts).map
            (fun (q : Part) => q.data.length)) = Except.ok [5242880, 5242880, 5242]
    ∧ ([5242880, 5248122] : List Nat) ≠ [5242880, 5242880, 5242] := by
  refine ⟨unbroken_sizes, ?_, by decide⟩
  rw [paused_snapshot]
  exact congrArg Except.ok (resumed_sizes _ paused_snapshot)

/-- Witness for the amended C9 theorem at a concrete input. -/
theorem c9_witness :
    ((writeU (initU "u" "i") [1]).1.data).length < minPartSize
    ∧ (pause (writeU (initU "u" "i") [1]).1 none).2.2 =
        Except.ok { buffer := [1], url := "u", uploadId := "i", part := 0, parts := [] }
    ∧ ((({ buffer := [1], url := "u", uploadId := "i", part := 0, parts := [] }
          : UploaderState).url = "u")
      ∧ ({ buffer := [1], url := "u", uploadId := "i", part := 0, parts := [] }
          : UploaderState).uploadId = "i"
      ∧ ({ buffer := [1], url := "u", uploadId := "i", part := 0, parts := [] }
          : UploaderState).part = (writeU (initU "u" "i") [1]).1.partCtr
      ∧ ({ buffer := [1], url := "u", uploadId := "i", part := 0, parts := [] }
          : UploaderState).parts = (writeU (initU "u" "i") [1]).1.parts
      ∧ ({ buffer := [1], url := "u", uploadId := "i", part := 0, parts := [] }
          : UploaderState).buffer = (writeU (initU "u" "i") [1]).1.data
      ∧ (resume { buffer := [1], url := "u", uploadId := "i", part := 0, parts := [] }).url
          = "u"
      ∧ (resume { buffer := [1], url := "u", uploadId := "i", part := 0, parts := [] }
          ).uploadId = "i"
      ∧ (resume { buffer := [1], url := "u", uploadId := "i", part := 0, parts := [] }
          ).partCtr = ({ buffer := [1], url := "u", uploadId := "i", part := 0, parts := [] }
          : UploaderState).part
      ∧ (resume { buffer := [1], url := "u", uploadId := "i", part := 0, parts := [] }
          ).parts = ({ buffer := [1], url := "u", uploadId := "i", part := 0, parts := [] }
          : UploaderState).parts
      ∧ (resume { buffer := [1], url := "u", uploadId := "i", part := 0, parts := [] }
          ).data = ({ buffer := [1], url := "u", uploadId := "i", part := 0, parts := [] }
          : UploaderState).buffer
      ∧ (((prepareClose (writeU
            (resume { buffer := [1], url := "u", uploadId := "i", part := 0, parts := [] })
            [2]).1 none).1.parts).map Part.data).flatten = [1] ++ [2]
      ∧ (((prepareClose (writeU (initU "u" "i") ([1] ++ [2])).1 none).1.parts).map
            Part.data).flatten = [1] ++ [2]) :=
  ⟨by decide, by rfl,
    c9_pause_resume "u" "i" [1] [2] (by decide) _ (by rfl)⟩

end S3Upload
